import Mathlib

/-!
Verification development for the QConfig data-binding library.

The library keeps an in-memory configuration dictionary synchronized with a
set of named UI controls.  This file gives a shallow embedding of its core:

* `src/qconfig/dynamic_loader.py` — the `QConfigDynamicLoader` key resolver,
  including a faithful model of `difflib.get_close_matches` (the fuzzy
  matcher it delegates to) with exact-rational similarity scores;
* `src/qconfig/qconfig.py` — the `QConfig` binder: hook construction with and
  without a loader (`_build_widget_hooks`, `_build_widget_hooks_from_loader`),
  the duplicate-hook registry, `set_data` / `get_data` tree synchronization,
  `values_match`, callback connection management, and the file-extension
  dispatch of `read` / `write`.

Widgets are modelled by their `objectName` string; each hook is a control
cell whose `get` returns the last value written by `set` (the capability
triple of a supported widget).  Python dictionaries are modelled as
insertion-ordered association lists, and raised exceptions as `Except`.
-/

set_option maxRecDepth 8000

/-- Python `dict` lookup (`d[k]`), returning `none` where Python raises
`KeyError`.  Association lists model dicts, so keys are unique in any state
reachable from the source code. -/
def lookupA {α : Type} : List (String × α) → String → Option α
  | [], _ => none
  | (k, v) :: rest, key => if k = key then some v else lookupA rest key

/-- Python `dict` assignment `d[k] = v`: replaces the value in place if the
key exists (keeping its position), otherwise appends the pair. -/
def upsertA {α : Type} : List (String × α) → String → α → List (String × α)
  | [], key, v => [(key, v)]
  | (k, w) :: rest, key, v =>
    if k = key then (key, v) :: rest else (k, w) :: upsertA rest key v

/-! ### difflib model

`QConfigDynamicLoader._complement` calls
`difflib.get_close_matches(key, widgets, n=1, cutoff=0.43)`.
`get_close_matches` keeps the possibilities whose `SequenceMatcher.ratio()`
against `key` is at least the cutoff and returns the largest-scoring one
(`real_quick_ratio` / `quick_ratio` are upper bounds of `ratio`, so the two
pre-filters never reject anything the final test accepts).  `ratio()` is
`2*M/T` where `T` is the total length of both sequences and `M` the total
size of the matching blocks found by repeatedly taking the longest matching
block and recursing on both sides.  We compute the score as an exact
rational (difflib compares IEEE doubles; on the strings appearing in the
theorems below the two agree).  The strings involved are far shorter than
200 characters, so difflib's autojunk heuristic marks nothing as junk. -/

/-- Length of the common prefix of two character lists: the size of the
matching run starting at a given pair of offsets. -/
def commonRun : List Char → List Char → Nat
  | x :: xs, y :: ys => if x = y then commonRun xs ys + 1 else 0
  | _, _ => 0

theorem commonRun_le_left (xs ys : List Char) : commonRun xs ys ≤ xs.length := by
  induction xs generalizing ys with
  | nil => cases ys <;> simp [commonRun]
  | cons x xs ih =>
    cases ys with
    | nil => simp [commonRun]
    | cons y ys =>
      simp only [commonRun, List.length_cons]
      split
      · exact Nat.succ_le_succ (ih ys)
      · exact Nat.zero_le _

theorem commonRun_le_right (xs ys : List Char) : commonRun xs ys ≤ ys.length := by
  induction xs generalizing ys with
  | nil => cases ys <;> simp [commonRun]
  | cons x xs ih =>
    cases ys with
    | nil => simp [commonRun]
    | cons y ys =>
      simp only [commonRun, List.length_cons]
      split
      · exact Nat.succ_le_succ (ih ys)
      · exact Nat.zero_le _

/-- Candidate update while scanning block offsets: the block at `(i, j)`
replaces the best seen so far only when strictly longer (so the maximal
block with least `i`, then least `j`, survives). -/
def flmCand (a b : List Char) (i : Nat) (best : Nat × Nat × Nat) (j : Nat) : Nat × Nat × Nat :=
  if best.2.2 < commonRun (a.drop i) (b.drop j) then (i, j, commonRun (a.drop i) (b.drop j))
  else best

/-- Scan all offsets `j` into `b` for a fixed offset `i` into `a`. -/
def flmStep (a b : List Char) (best : Nat × Nat × Nat) (i : Nat) : Nat × Nat × Nat :=
  (List.range b.length).foldl (flmCand a b i) best

/-- `SequenceMatcher.find_longest_match` over the whole sequences, junk-free
case: among all matching blocks `(i, j, k)` with `a[i:i+k] == b[j:j+k]`, the
one with `k` maximal, breaking ties by least `i`, then least `j` — exactly
the contract difflib documents for this method.  Returns `(i, j, k)`;
`k = 0` means the sequences have no common element. -/
def findLongestMatch (a b : List Char) : Nat × Nat × Nat :=
  (List.range a.length).foldl (flmStep a b) (0, 0, 0)

/-- Invariant preservation along a left fold. -/
theorem foldl_inv {α β : Type} (P : β → Prop) (f : β → α → β) (l : List α) (init : β)
    (h0 : P init) (hstep : ∀ y x, x ∈ l → P y → P (f y x)) : P (l.foldl f init) := by
  induction l generalizing init with
  | nil => exact h0
  | cons x xs ih =>
    exact ih _ (hstep _ _ (by simp) h0)
      (fun y z hz hy => hstep y z (by simp [hz]) hy)

/-- A candidate result of `findLongestMatch`: either the trivial block
(`k = 0`) or an in-range block whose size is the common run at its
offsets. -/
abbrev IsBlockOf (a b : List Char) (m : Nat × Nat × Nat) : Prop :=
  m.2.2 = 0 ∨ (m.1 < a.length ∧ m.2.1 < b.length ∧
    m.2.2 = commonRun (a.drop m.1) (b.drop m.2.1))

theorem findLongestMatch_inrange (a b : List Char) :
    IsBlockOf a b (findLongestMatch a b) := by
  unfold findLongestMatch
  apply foldl_inv (IsBlockOf a b)
  · exact Or.inl rfl
  · intro best i hi hbest
    unfold flmStep
    apply foldl_inv (IsBlockOf a b)
    · exact hbest
    · intro best2 j hj hbest2
      unfold flmCand
      split
      · exact Or.inr ⟨List.mem_range.mp hi, List.mem_range.mp hj, rfl⟩
      · exact hbest2

/-- Recursion of difflib's `get_matching_blocks`: take the longest matching
block and recurse on the parts to its left and to its right.  The `fuel`
argument only makes the recursion structural (each recursive call strictly
shrinks the combined length, which `matchingTotal` passes as fuel, so the
zero-fuel branch is never taken from `matchingTotal`): a nontrivial block
has `k ≥ 1` and in-range offsets (`findLongestMatch_inrange`). -/
def matchingTotalAux : Nat → List Char → List Char → Nat
  | 0, _, _ => 0
  | fuel + 1, a, b =>
    if (findLongestMatch a b).2.2 = 0 then 0
    else
      matchingTotalAux fuel (a.take (findLongestMatch a b).1)
          (b.take (findLongestMatch a b).2.1) +
        (findLongestMatch a b).2.2 +
        matchingTotalAux fuel (a.drop ((findLongestMatch a b).1 + (findLongestMatch a b).2.2))
          (b.drop ((findLongestMatch a b).2.1 + (findLongestMatch a b).2.2))

/-- Total size of the matching blocks of `a` and `b`: the `M` in difflib's
ratio. -/
def matchingTotal (a b : List Char) : Nat :=
  matchingTotalAux (a.length + b.length) a b

/-- The similarity score of candidate `x` against the key, as an exact
rational `(numerator, denominator)`: `ratio() = 2*M/T`.  difflib defines
the ratio of two empty sequences as `1.0`. -/
def ratioFrac (x word : List Char) : Nat × Nat :=
  if x.length + word.length = 0 then (1, 1)
  else (2 * matchingTotal x word, x.length + word.length)

/-- Cutoff test of `get_close_matches` with `cutoff=0.43`: the score must be
at least `43/100` (difflib tests `ratio >= cutoff`, an inclusive bound). -/
def ratioGeCutoff (x word : List Char) : Bool :=
  decide (43 * (ratioFrac x word).2 ≤ 100 * (ratioFrac x word).1)

/-- Exact comparison of the scores of two candidates against the same key,
by cross-multiplication. -/
def ratioLt (word x y : List Char) : Bool :=
  decide ((ratioFrac x word).1 * (ratioFrac y word).2 <
    (ratioFrac y word).1 * (ratioFrac x word).2)

def ratioEq (word x y : List Char) : Bool :=
  decide ((ratioFrac x word).1 * (ratioFrac y word).2 =
    (ratioFrac y word).1 * (ratioFrac x word).2)

/-- One step of taking the maximum of the pairs `(ratio, candidate)`:
a candidate replaces the current best when its score is strictly larger,
or equal with a lexicographically larger string (Python tuple order). -/
def pickBetter (w : List Char) : Option String → String → Option String
  | none, x => some x
  | some b, x =>
    if ratioLt w b.toList x.toList ||
        (ratioEq w b.toList x.toList && decide (b < x)) then some x
    else some b

/-- `difflib.get_close_matches(word, possibilities, n=1, cutoff=0.43)`,
returning the single best candidate if any scores at least the cutoff.
With `n=1` the call reduces to `max` over pairs `(ratio, candidate)`, which
compares by score first and lexicographic string order second, keeping the
first occurrence of a fully tied pair. -/
def getCloseMatch1 (word : String) (possibilities : List String) : Option String :=
  (possibilities.filter (fun x => ratioGeCutoff x.toList word.toList)).foldl
    (pickBetter word.toList) none

/-- `QConfigDynamicLoader._complement(data, key, widgets)`: add `key` to the
dataset mapped to its closest fuzzy match among `widgets`, if any; returns
the updated dataset and whether a match was found. -/
def complement (data : List (String × String)) (key : String) (widgets : List String) :
    List (String × String) × Bool :=
  match getCloseMatch1 key widgets with
  | some m => (upsertA data key m, true)
  | none => (data, false)

/-! ### QConfigDynamicLoader.build -/

/-- The exceptions raised by the modelled code paths. -/
inductive QErr where
  /-- `InvalidWidgetMappingError`, tagged with the key being processed when
  it was raised and the message the source formats. -/
  | invalidMapping (key : String) (msg : String)
  /-- `WidgetNotFoundError` -/
  | widgetNotFound (key : String)
  /-- `WidgetAlreadydHookedError(widget, hooked_in)` -/
  | alreadyHooked (widget : String) (owner : String)
  /-- Python `KeyError` on a dict lookup -/
  | keyError (key : String)
deriving DecidableEq, Repr

instance {ε α : Type} [DecidableEq ε] [DecidableEq α] : DecidableEq (Except ε α) := fun a b =>
  match a, b with
  | .ok x, .ok y =>
    if h : x = y then .isTrue (by rw [h]) else .isFalse (by simp [h])
  | .error x, .error y =>
    if h : x = y then .isTrue (by rw [h]) else .isFalse (by simp [h])
  | .ok _, .error _ => .isFalse (by simp)
  | .error _, .ok _ => .isFalse (by simp)

/-- `QConfigDynamicLoader._validate_key_presence` (dict mode): iterate the
original pairs, threading the (mutated-in-place) dict `acc`; a pair passes
if its key is suppressed or its value is an existing widget, else fuzzy
completion is attempted when enabled; otherwise the build fails.  On
success `built_data` is the final dict itself. -/
def validateKeyPresence (suppress : List String) (complementKeys : Bool)
    (widgets : List String) (acc : List (String × String)) :
    List (String × String) → Except QErr (List (String × String))
  | [] => .ok acc
  | (k, v) :: rest =>
    if k ∈ suppress ∨ v ∈ widgets then
      validateKeyPresence suppress complementKeys widgets acc rest
    else if complementKeys then
      match complement acc k widgets with
      | (acc2, true) => validateKeyPresence suppress complementKeys widgets acc2 rest
      | (_, false) => .error (.invalidMapping k ("No matching widget for " ++ v))
    else .error (.invalidMapping k ("No matching widget for " ++ v))

/-- Loop body of `QConfigDynamicLoader._build_from_list`: for each key with
no exact widget match, try fuzzy completion (when enabled) against the
widgets left over after exact matching, then fall back to suppression, then
fail.  `remWidgets` is computed once and never shrinks as completions are
claimed. -/
def buildFromListLoop (suppress : List String) (complementKeys : Bool)
    (remWidgets : List String) (acc : List (String × String)) :
    List String → Except QErr (List (String × String))
  | [] => .ok acc
  | k :: rest =>
    match if complementKeys then complement acc k remWidgets else (acc, false) with
    | (acc2, true) => buildFromListLoop suppress complementKeys remWidgets acc2 rest
    | (_, false) =>
      if k ∈ suppress then buildFromListLoop suppress complementKeys remWidgets acc rest
      else .error (.invalidMapping k ("No matching widget for " ++ k))

/-- `QConfigDynamicLoader._build_from_list` (list mode): exact matches map
to themselves; the remaining keys go through `buildFromListLoop`. -/
def buildFromList (suppress : List String) (complementKeys : Bool)
    (widgets : List String) (keys : List String) : Except QErr (List (String × String)) :=
  let matched := keys.filter (fun k => k ∈ widgets)
  let exactMatches := matched.foldl (fun acc k => upsertA acc k k) []
  let remainingKeys := keys.filter (fun k => ¬ k ∈ widgets)
  let remainingWidgets := widgets.filter (fun w => ¬ w ∈ matched)
  buildFromListLoop suppress complementKeys remainingWidgets exactMatches remainingKeys

/-- The `data` argument of `QConfigDynamicLoader`: an explicit key-to-widget
dict, or a bare list of keys to complete. -/
inductive LoaderData where
  | dictData (pairs : List (String × String))
  | listData (keys : List String)
deriving DecidableEq, Repr

/-- `QConfigDynamicLoader.build(widgets)` (the `show_build` flag only prints
and is omitted): dispatch on the shape of `data`; the result is the
`built_data` attribute set on success. -/
def loaderBuild (data : LoaderData) (suppress : List String) (complementKeys : Bool)
    (widgets : List String) : Except QErr (List (String × String)) :=
  match data with
  | .dictData pairs => validateKeyPresence suppress complementKeys widgets pairs pairs
  | .listData keys => buildFromList suppress complementKeys widgets keys

example :
    loaderBuild (.listData ["user", "xyz123"]) ["xyz123"] true
      ["user_name", "date_of_birth"] =
      .ok [("user", "user_name")] := by decide

example :
    loaderBuild (.dictData [("a", "nope")]) ["a"] false ["w"] =
      .ok [("a", "nope")] := by decide

/-! ### The QConfig data model

A configuration dataset is a Python dict whose values are scalars or nested
dicts.  Widgets appear through their `objectName`; a built `Hook` stores
which widget a configuration key drives, and every supported widget's
capability pair behaves as a cell: `set` stores a value in the widget and
`get` returns the value it currently holds. -/

mutual
/-- A value of a configuration entry: a scalar (the claims cover booleans,
integers and text) or a nested dict. -/
inductive CVal where
  | bool (b : Bool)
  | int (n : Int)
  | str (s : String)
  | dict (t : CTree)
deriving DecidableEq, Repr
/-- A configuration dict: insertion-ordered key/value entries. -/
inductive CTree where
  | nil
  | cons (key : String) (val : CVal) (rest : CTree)
deriving DecidableEq, Repr
end

/-- The `(key, value)` pairs of the leaves of a tree, in the order the
recursive `for k, v in data.items()` walks reach them. -/
def leafAssoc : CTree → List (String × CVal)
  | .nil => []
  | .cons _ (.dict sub) rest => leafAssoc sub ++ leafAssoc rest
  | .cons k v rest => (k, v) :: leafAssoc rest

/-- The leaf keys of a tree, in walk order. -/
def leafKeys (t : CTree) : List String :=
  (leafAssoc t).map Prod.fst

/-- The top-level keys of a tree (`data.keys()`). -/
def topKeys : CTree → List String
  | .nil => []
  | .cons k _ rest => k :: topKeys rest

/-- Top-level dict lookup `data[k]` on a tree. -/
def topLookup : CTree → String → Option CVal
  | .nil, _ => none
  | .cons k v rest, key => if k = key then some v else topLookup rest key

/-- Structural induction on trees with the shape of the source's recursive
walks: empty dict, entry whose value is a nested dict, entry whose value is
a leaf. -/
theorem CTree.inductLeaf (P : CTree → Prop) (h1 : P .nil)
    (h2 : ∀ k sub rest, P sub → P rest → P (.cons k (.dict sub) rest))
    (h3 : ∀ k v rest, (∀ sub, v ≠ .dict sub) → P rest → P (.cons k v rest)) : ∀ t, P t := by
  have main : ∀ n t, sizeOf t ≤ n → P t := by
    intro n
    induction n with
    | zero => intro t h; cases t <;> simp at h
    | succ n ih =>
      intro t h
      cases t with
      | nil => exact h1
      | cons k v rest =>
        cases v with
        | dict sub =>
          apply h2
          · apply ih; simp at h ⊢; omega
          · apply ih; simp at h ⊢; omega
        | bool b => exact h3 _ _ _ (by intro sub hsub; cases hsub) (ih _ (by simp at h ⊢; omega))
        | int m => exact h3 _ _ _ (by intro sub hsub; cases hsub) (ih _ (by simp at h ⊢; omega))
        | str s => exact h3 _ _ _ (by intro sub hsub; cases hsub) (ih _ (by simp at h ⊢; omega))
  exact fun t => main (sizeOf t) t (Nat.le_refl _)

/-! ### Hook construction (`QConfig._build_widget_hooks` and the loader
variant)

`QConfig._hooked_widgets` is a class attribute: a registry shared by all
QConfig instances, mapping each instance name to the list of widget names it
has claimed.  `self._hooks` is per instance.  Both build methods assign
`self._hooked_widgets[self._name] = []` on entry — including on every
recursive call, which wipes the claims recorded so far for this instance. -/

/-- The mutable state a build run threads: the instance's `_hooks` dict
(key to widget objectName) and the shared `_hooked_widgets` registry. -/
structure HookSt where
  hooks : List (String × String)
  registry : List (String × List String)
deriving DecidableEq, Repr

/-- `QConfig._check_widget_not_hooked`: the first registry entry whose claim
list contains the widget, if any (the source raises
`WidgetAlreadydHookedError(widget_name, name)` for it). -/
def checkWidgetNotHooked : List (String × List String) → String → Option String
  | [], _ => none
  | (name, ws) :: rest, w => if w ∈ ws then some name else checkWidgetNotHooked rest w

/-- `self._hooked_widgets[self._name].append(w)`. -/
def appendClaim (reg : List (String × List String)) (name w : String) :
    List (String × List String) :=
  upsertA reg name (((lookupA reg name).getD []) ++ [w])

/-- Loop body of `QConfig._build_widget_hooks` over one dict's items.  For
each entry: the duplicate-hook check (unless `allow_multiple_hooks`), then
recursion into nested dicts (when `recursive`) — the recursive call resets
this instance's registry entry, as the source method does on entry — and
otherwise the exact-match test `k not in widget_names`, whose failure
silently returns from the current call, skipping every later sibling. -/
def buildItems (name : String) (recursive allowMultiple : Bool)
    (widgetNames : List String) : CTree → HookSt → Except QErr HookSt
  | .nil, st => .ok st
  | .cons k v rest, st =>
    match if allowMultiple then none else checkWidgetNotHooked st.registry k with
    | some owner => .error (.alreadyHooked k owner)
    | none =>
      match v, recursive with
      | .dict sub, true =>
        match buildItems name recursive allowMultiple widgetNames sub
            { st with registry := upsertA st.registry name [] } with
        | .error e => .error e
        | .ok st2 => buildItems name recursive allowMultiple widgetNames rest st2
      | _, _ =>
        if k ∈ widgetNames then
          buildItems name recursive allowMultiple widgetNames rest
            { hooks := upsertA st.hooks k k, registry := appendClaim st.registry name k }
        else .ok st

/-- `QConfig._build_widget_hooks(data, widgets)`: resets this instance's
registry entry, then processes the items. -/
def buildWidgetHooks (name : String) (recursive allowMultiple : Bool)
    (widgetNames : List String) (data : CTree) (st : HookSt) : Except QErr HookSt :=
  buildItems name recursive allowMultiple widgetNames data
    { st with registry := upsertA st.registry name [] }

/-- Loop body of `QConfig._build_widget_hooks_from_loader`: like
`buildItems`, but a key with no exact widget match falls back to the
loader's `built_data`; a key in neither raises `WidgetNotFoundError(k)`,
and a mapped widget name absent from the widget list makes `_get_widget`
raise `WidgetNotFoundError` for it.  The hook is stored under the original
key, while the claim list records the resolved widget name. -/
def buildItemsLoader (name : String) (recursive allowMultiple : Bool)
    (widgetNames : List String) (built : List (String × String)) :
    CTree → HookSt → Except QErr HookSt
  | .nil, st => .ok st
  | .cons k v rest, st =>
    match if allowMultiple then none else checkWidgetNotHooked st.registry k with
    | some owner => .error (.alreadyHooked k owner)
    | none =>
      match v, recursive with
      | .dict sub, true =>
        match buildItemsLoader name recursive allowMultiple widgetNames built sub
            { st with registry := upsertA st.registry name [] } with
        | .error e => .error e
        | .ok st2 => buildItemsLoader name recursive allowMultiple widgetNames built rest st2
      | _, _ =>
        if k ∈ widgetNames then
          buildItemsLoader name recursive allowMultiple widgetNames built rest
            { hooks := upsertA st.hooks k k, registry := appendClaim st.registry name k }
        else
          match lookupA built k with
          | none => .error (.widgetNotFound k)
          | some w =>
            if w ∈ widgetNames then
              buildItemsLoader name recursive allowMultiple widgetNames built rest
                { hooks := upsertA st.hooks k w, registry := appendClaim st.registry name w }
            else .error (.widgetNotFound w)

/-- `QConfig._build_widget_hooks_from_loader(data, widgets, loader)` after
`loader.build(widgets)` produced `built`: resets this instance's registry
entry, then processes the items. -/
def buildWidgetHooksFromLoader (name : String) (recursive allowMultiple : Bool)
    (widgetNames : List String) (built : List (String × String)) (data : CTree)
    (st : HookSt) : Except QErr HookSt :=
  buildItemsLoader name recursive allowMultiple widgetNames built data
    { st with registry := upsertA st.registry name [] }

example :
    buildWidgetHooks "A" true false ["x", "y"]
      (.cons "x" (.int 1) (.cons "sub" (.dict (.cons "y" (.int 2) .nil)) .nil))
      ⟨[], []⟩ =
      .ok ⟨[("x", "x"), ("y", "y")], [("A", ["y"])]⟩ := by decide

/-! ### Data synchronization (`QConfig.set_data` / `QConfig.get_data`)

The claims model every built hook as a control cell: `hook.set(v)` stores
`v` in the widget and `hook.get()` returns the value the widget currently
holds.  The widgets' contents form a total map from objectName to value. -/

/-- The state `set_data` / `get_data` operate on: the instance's `data`
tree, its `_hooks` (key to widget objectName), the contents of the widgets,
and the `_ignore_changes` flag. -/
structure SyncSt where
  data : CTree
  hooks : List (String × String)
  store : String → CVal
  ignoreChanges : Bool

/-- The recursive loop of `set_data`: walk the items; recurse into nested
dicts; for a leaf, `self._hooks[k]` (a missing hook is a `KeyError`) and
`hook.set(v)` — write the value into the hooked widget. -/
def setTree (hooks : List (String × String)) : CTree → (String → CVal) →
    Except QErr (String → CVal)
  | .nil, store => .ok store
  | .cons _ (.dict sub) rest, store =>
    match setTree hooks sub store with
    | .error e => .error e
    | .ok s2 => setTree hooks rest s2
  | .cons k v rest, store =>
    match lookupA hooks k with
    | none => .error (.keyError k)
    | some w => setTree hooks rest (fun x => if x = w then v else store x)

/-- `QConfig.set_data()` with no argument (the master call).  The source
guards the master call with `_ignore_changes` and sets the flag before the
walk; the closing `if data is None: self._ignore_changes = False` can never
run, because `data` was reassigned to `self.data` at the top, so the flag
stays `True` after the first master call.  On a `KeyError` the exception
propagates (the model returns the error; no theorem relies on the state
after an escaped exception). -/
def set_data (st : SyncSt) : Except QErr SyncSt :=
  if st.ignoreChanges then .ok st
  else
    match setTree st.hooks st.data st.store with
    | .error e => .error e
    | .ok s2 => .ok { st with store := s2, ignoreChanges := true }

/-- The recursive loop of `get_data`: walk the items; recurse into nested
dicts; for a leaf, `data[k] = hook.get()` — overwrite the entry with the
hooked widget's value. -/
def getTree (hooks : List (String × String)) (store : String → CVal) :
    CTree → Except QErr CTree
  | .nil => .ok .nil
  | .cons k (.dict sub) rest =>
    match getTree hooks store sub with
    | .error e => .error e
    | .ok sub2 =>
      match getTree hooks store rest with
      | .error e => .error e
      | .ok rest2 => .ok (.cons k (.dict sub2) rest2)
  | .cons k _ rest =>
    match lookupA hooks k with
    | none => .error (.keyError k)
    | some w =>
      match getTree hooks store rest with
      | .error e => .error e
      | .ok rest2 => .ok (.cons k (store w) rest2)

/-- `QConfig.get_data()` with no argument (the master call).  It has no
`_ignore_changes` guard; with `_dump_on_save` it additionally writes the
file afterwards, which is external I/O outside this model. -/
def get_data (st : SyncSt) : Except QErr SyncSt :=
  match getTree st.hooks st.store st.data with
  | .error e => .error e
  | .ok d2 => .ok { st with data := d2 }

/-! ### `QConfig.values_match` -/

mutual
/-- Python `==` on configuration values: `True == 1` and `False == 0` hold
(bool is an int subtype); strings compare by content; dicts compare
unordered, by equal size and equal value at every key. -/
def pyEqV : CVal → CVal → Bool
  | .bool b1, .bool b2 => b1 == b2
  | .bool b, .int n => (if b then (1 : Int) else 0) == n
  | .int n, .bool b => n == (if b then (1 : Int) else 0)
  | .int n1, .int n2 => n1 == n2
  | .str s1, .str s2 => s1 == s2
  | .dict t1, .dict t2 => treeLen t1 == treeLen t2 && pyEqEntries t1 t2
  | _, _ => false
/-- Every entry of the first dict is present in the second with a
`pyEqV`-equal value. -/
def pyEqEntries : CTree → CTree → Bool
  | .nil, _ => true
  | .cons k v rest, t2 =>
    (match treeLookup t2 k with
     | some v2 => pyEqV v v2
     | none => false) && pyEqEntries rest t2
/-- `len(d)` for a dict. -/
def treeLen : CTree → Nat
  | .nil => 0
  | .cons _ _ rest => treeLen rest + 1
/-- First-match lookup inside a dict. -/
def treeLookup : CTree → String → Option CVal
  | .nil, _ => none
  | .cons k v rest, key => if k = key then some v else treeLookup rest key
end

/-- The generator that `QConfig.values_match` hands to `all`, hook by hook:
`hook.get() == self.data[k]`.  The lookup `self.data[k]` reads the top
level only; a hook whose key exists only inside a nested sub-dict raises
`KeyError` (`none` here).  `all` short-circuits at the first failed
comparison, so a `False` before the bad key yields `some false` instead. -/
def valuesMatchLoop (data : CTree) (store : String → CVal) :
    List (String × String) → Option Bool
  | [] => some true
  | (k, w) :: rest =>
    match topLookup data k with
    | none => none
    | some v => if pyEqV (store w) v then valuesMatchLoop data store rest else some false

/-- `QConfig.values_match()`:
`all(hook.get() == self.data[k] for k, hook in self._hooks.items())`. -/
def values_match (st : SyncSt) : Option Bool :=
  valuesMatchLoop st.data st.store st.hooks

/-- Modelled from the spec: `valuesMatch() -> bool` is "true iff every leaf
Hook's current `get()` equals the corresponding stored value", where the
stored value for a hook's key is the one the (possibly nested) data tree
holds at that leaf key. -/
def valuesMatchSpec (st : SyncSt) : Bool :=
  st.hooks.all (fun kw =>
    match lookupA (leafAssoc st.data) kw.1 with
    | some v => pyEqV (st.store kw.2) v
    | none => false)

/-! ### Callback management (`connect_callback` / `disconnect_callback` /
`save_on_change`)

A Qt signal holds an ordered list of connected slots.  Python callables
have identity: `connect_callback` connects `lambda: callback()` — a wrapper
object freshly created per hook, distinct from `callback` itself — so
slots are modelled as tagged references: a directly connected callable, or
a wrapper around one.  `disconnect(slot)` removes that exact slot and
raises `RuntimeError` when it is not connected, which the source catches
and logs. -/

inductive CBRef where
  /-- a callable connected directly (identified by a token) -/
  | named (id : Nat)
  /-- a fresh `lambda: callback()` wrapper around token `wraps` -/
  | wrapper (uid : Nat) (wraps : Nat)
deriving DecidableEq, Repr

/-- The state callback management operates on: the instance's hooks, each
hook's signal connection list (keyed by hook key), a counter for fresh
wrapper identities, the log of caught disconnect failures, and the
`_save_on_change` flag. -/
structure CBState where
  hooks : List (String × String)
  signals : List (String × List CBRef)
  nextId : Nat
  logs : List String
  saveOnChange : Bool

/-- One iteration of the `connect_callback` loop, at hook `kw`:
`hook.callback.connect(lambda: callback())` — append a fresh wrapper around
`cb` to that hook's connection list, unless the key is excluded. -/
def connectStep (cb : Nat) (exclude : Option (List String)) (s : CBState)
    (kw : String × String) : CBState :=
  if (match exclude with | some ex => ex.contains kw.1 | none => false) then s
  else
    { s with
      signals := upsertA s.signals kw.1
        (((lookupA s.signals kw.1).getD []) ++ [.wrapper s.nextId cb]),
      nextId := s.nextId + 1 }

/-- `QConfig.connect_callback(callback, exclude)`: run the loop over all
hooks. -/
def connect_callback (st : CBState) (cb : Nat) (exclude : Option (List String)) : CBState :=
  st.hooks.foldl (connectStep cb exclude) st

/-- `QConfig.disconnect_callback(callback, exclude)`: for every non-excluded
hook, `hook.callback.disconnect(callback)`; with a callback given, Qt
removes that exact slot if connected and otherwise raises `RuntimeError`,
which the source catches and prints; with `None`, all slots are removed
(per the source's docstring). -/
def disconnectStep (cb : Option Nat) (exclude : Option (List String)) (s : CBState)
    (kw : String × String) : CBState :=
  if (match exclude with | some ex => ex.contains kw.1 | none => false) then s
  else
    match cb with
    | none => { s with signals := upsertA s.signals kw.1 [] }
    | some c =>
      if .named c ∈ (lookupA s.signals kw.1).getD [] then
        { s with
          signals :=
            upsertA s.signals kw.1
              (((lookupA s.signals kw.1).getD []).filter (fun r => r ≠ .named c)) }
      else
        { s with logs := s.logs ++ ["Tried disconnecting non connected signal"] }

def disconnect_callback (st : CBState) (cb : Option Nat) (exclude : Option (List String)) :
    CBState :=
  st.hooks.foldl (disconnectStep cb exclude) st

/-- The token standing for the bound method `self.get_data` that the
`save_on_change` setter passes to connect and disconnect. -/
def getDataToken : Nat := 0

/-- The `save_on_change` property setter: no-op when unchanged; connects
`self.get_data` when switched on, attempts to disconnect it when switched
off, then records the flag. -/
def setSaveOnChange (st : CBState) (state : Bool) : CBState :=
  if state = st.saveOnChange then st
  else if state then
    { connect_callback st getDataToken none with saveOnChange := true }
  else
    { disconnect_callback st (some getDataToken) none with saveOnChange := false }

/-! ### File-extension dispatch of `QConfig.read` / `QConfig.write` -/

/-- The index of the last occurrence of `c`, if any (`str.rfind`). -/
def lastIndexOf (cs : List Char) (c : Char) : Option Nat :=
  match cs with
  | [] => none
  | x :: xs =>
    match lastIndexOf xs c with
    | some i => some (i + 1)
    | none => if x = c then some 0 else none

/-- The extension part of `os.path.splitext(p)` (posix rules): the suffix
from the last dot, provided that dot lies after the last path separator and
the base name does not consist solely of leading dots up to it. -/
def splitextExt (p : String) : String :=
  let cs := p.toList
  match lastIndexOf cs '.' with
  | none => ""
  | some d =>
    let fstart := match lastIndexOf cs '/' with
      | none => 0
      | some s => s + 1
    if (match lastIndexOf cs '/' with | none => true | some s => decide (s < d)) then
      if ((cs.drop fstart).take (d - fstart)).all (fun c => c == '.') then ""
      else String.mk (cs.drop d)
    else ""

/-- The file formats the persistence dispatch recognizes. -/
inductive FileFmt where
  | json
  | xml
  | yaml
deriving DecidableEq, Repr

/-- The extension dispatch of `QConfig.read` (a filepath is provided): which
parser runs, or the `ValueError` message of the final `else` branch. -/
def readFormat (filepath : String) : Except String FileFmt :=
  let ext := splitextExt filepath
  if ext = ".json" then .ok .json
  else if ext = ".xml" then .ok .xml
  else if ext = ".yaml" ∨ ext = ".yml" then .ok .yaml
  else .error ("Unsupported file format: " ++ ext)

/-- The extension dispatch of `QConfig.write` (a filepath is provided):
which serializer runs.  The chain has no `else` branch, so an unrecognized
extension makes the method return without writing anything (`none`). -/
def writeFormat (filepath : String) : Option FileFmt :=
  let ext := splitextExt filepath
  if ext = ".json" then some .json
  else if ext = ".xml" then some .xml
  else if ext = ".yaml" ∨ ext = ".yml" then some .yaml
  else none

example : readFormat "tests/sample_data.json" = .ok .json := by decide
example : readFormat "config.txt" = .error "Unsupported file format: .txt" := by decide
example : writeFormat "config.txt" = none := by decide
example : splitextExt ".bashrc" = "" := by decide

/-! ### Shared association-list lemmas -/

theorem lookupA_upsert_eq {α : Type} (l : List (String × α)) (k : String) (v : α) :
    lookupA (upsertA l k v) k = some v := by
  induction l with
  | nil => simp [upsertA, lookupA]
  | cons p rest ih =>
    obtain ⟨k0, v0⟩ := p
    by_cases h : k0 = k
    · subst h
      simp [upsertA, lookupA]
    · simp [upsertA, lookupA, h, ih]

theorem lookupA_upsert_ne {α : Type} (l : List (String × α)) (k k2 : String) (v : α)
    (h : k ≠ k2) : lookupA (upsertA l k v) k2 = lookupA l k2 := by
  induction l with
  | nil => simp [upsertA, lookupA, h]
  | cons p rest ih =>
    obtain ⟨k0, v0⟩ := p
    by_cases h0 : k0 = k
    · subst h0
      simp [upsertA, lookupA, h]
    · simp only [upsertA, if_neg h0, lookupA]
      by_cases h2 : k0 = k2
      · simp [h2]
      · simp [h2, ih]

/-! ### C1 — `set_data` after the first master call -/

/-- C1's failing input: a QConfig whose hooks were fully built (`a` hooked
to widget `a`), before its first `set_data()` call. -/
def c1St0 : SyncSt :=
  { data := .cons "a" (.int 1) .nil
    hooks := [("a", "a")]
    store := fun _ => .int 0
    ignoreChanges := false }

/-- The state after the first master `set_data()` call. -/
def c1St1 : SyncSt :=
  match set_data c1St0 with
  | .ok st => st
  | .error _ => c1St0

/-- The caller then mutates its (referenced, not copied) data dict:
`data["a"] = 2`. -/
def c1St2 : SyncSt := { c1St1 with data := .cons "a" (.int 2) .nil }

/-- C1: the spec says every `pushToControls()` call walks the whole tree
and invokes every leaf hook's `set`.  The code does so only on the first
master call: `_ignore_changes` is set then never reset (the reset sits
under `if data is None` after `data` was reassigned), so the second call
returns immediately — here the widget keeps the stale value `1` although
the data now says `2`. -/
theorem c1_set_data_second_master_call_skips :
    set_data c1St0 = .ok c1St1 ∧
    c1St1.store "a" = .int 1 ∧
    c1St1.ignoreChanges = true ∧
    set_data c1St2 = .ok c1St2 ∧
    c1St2.store "a" = .int 1 ∧
    topLookup c1St2.data "a" = some (.int 2) :=
  ⟨rfl, rfl, rfl, rfl, rfl, rfl⟩

/-! ### C7 — `values_match` on a nested tree -/

/-- C7's failing input: data `{"sub": {"x": 1}}` with (recursively built)
hook `x`, and the widget holding the matching value `1`. -/
def c7St : SyncSt :=
  { data := .cons "sub" (.dict (.cons "x" (.int 1) .nil)) .nil
    hooks := [("x", "x")]
    store := fun _ => .int 1
    ignoreChanges := false }

/-- C7: hooks for `{"sub": {"x": 1}}` are built recursively (the hook dict
maps `x`), but `values_match` compares `hook.get()` against the top-level
`self.data[k]`: for the nested-only key `x` that lookup raises `KeyError`
(`none`) instead of returning the comparison the spec describes, which here
would be `true`. -/
theorem c7_values_match_keyerror_on_nested :
    buildWidgetHooks "A" true false ["x"] c7St.data ⟨[], []⟩ =
      .ok ⟨[("x", "x")], [("A", ["x"])]⟩ ∧
    values_match c7St = none ∧
    valuesMatchSpec c7St = true :=
  ⟨by decide, rfl, rfl⟩

/-! ### C8 — unsupported persistence formats -/

/-- C8: for an extension outside `.json` / `.xml` / `.yaml` / `.yml`,
`read` raises `ValueError` as the spec says, but `write`'s dispatch chain
has no `else` branch: it silently returns without writing anything, even
though its own docstring promises a `ValueError` for an unknown
extension. -/
theorem c8_write_silently_ignores_unknown_extension :
    readFormat "config.txt" = .error "Unsupported file format: .txt" ∧
    writeFormat "config.txt" = none ∧
    readFormat "config.json" = .ok .json ∧
    readFormat "data.xml" = .ok .xml ∧
    readFormat "data.yml" = .ok .yaml ∧
    writeFormat "config.json" = some .json := by
  decide

/-! ### C2 — suppressed keys in `QConfigDynamicLoader.build` -/

/-- The key (or widget name) an exception was raised for. -/
def QErr.key : QErr → String
  | .invalidMapping k _ => k
  | .widgetNotFound k => k
  | .alreadyHooked w _ => w
  | .keyError k => k

/-- `_complement` either leaves the dataset unchanged or upserts the
completed key. -/
theorem complement_fst (acc : List (String × String)) (key : String) (widgets : List String) :
    (complement acc key widgets).1 = acc ∨
    ∃ m, (complement acc key widgets).1 = upsertA acc key m := by
  unfold complement
  cases getCloseMatch1 key widgets with
  | none => exact Or.inl rfl
  | some m => exact Or.inr ⟨m, rfl⟩

/-- In dict mode, a build failure is always raised while processing a
non-suppressed key. -/
theorem validateKeyPresence_error_not_suppressed (suppress : List String) (ck : Bool)
    (widgets : List String) : ∀ (pairs acc : List (String × String)) (e : QErr),
    validateKeyPresence suppress ck widgets acc pairs = .error e → QErr.key e ∉ suppress := by
  intro pairs
  induction pairs with
  | nil => intro acc e h; simp [validateKeyPresence] at h
  | cons p rest ih =>
    intro acc e h
    obtain ⟨k, v⟩ := p
    simp only [validateKeyPresence] at h
    split at h
    · exact ih _ _ h
    · rename_i h1
      split at h
      · rcases hcm : complement acc k widgets with ⟨acc2, b⟩
        rw [hcm] at h
        cases b
        · simp only [Except.error.injEq] at h
          subst h
          simp only [QErr.key]
          exact fun hk => h1 (Or.inl hk)
        · exact ih _ _ h
      · simp only [Except.error.injEq] at h
        subst h
        simp only [QErr.key]
        exact fun hk => h1 (Or.inl hk)

/-- In dict mode, a successful build leaves every suppressed key's entry
untouched (completions only rewrite the non-suppressed key being
processed). -/
theorem validateKeyPresence_ok_lookup (suppress : List String) (ck : Bool)
    (widgets : List String) (k : String) (hk : k ∈ suppress) :
    ∀ (pairs acc r : List (String × String)),
    validateKeyPresence suppress ck widgets acc pairs = .ok r →
    lookupA r k = lookupA acc k := by
  intro pairs
  induction pairs with
  | nil => intro acc r h; simp only [validateKeyPresence, Except.ok.injEq] at h; rw [h]
  | cons p rest ih =>
    intro acc r h
    obtain ⟨k2, v⟩ := p
    simp only [validateKeyPresence] at h
    split at h
    · exact ih _ _ h
    · rename_i h1
      have hne : k2 ≠ k := fun he => h1 (Or.inl (he ▸ hk))
      split at h
      · rcases hcm : complement acc k2 widgets with ⟨acc2, b⟩
        rw [hcm] at h
        cases b
        · simp at h
        · have := ih _ _ h
          rw [this]
          rcases complement_fst acc k2 widgets with hc | ⟨m, hc⟩
          · rw [hcm] at hc
            simp only at hc
            rw [hc]
          · rw [hcm] at hc
            simp only at hc
            rw [hc, lookupA_upsert_ne _ _ _ _ hne]
      · simp at h

/-- In list mode, a build failure is always raised for a non-suppressed
key. -/
theorem buildFromListLoop_error_not_suppressed (suppress : List String) (ck : Bool)
    (remWidgets : List String) : ∀ (ks : List String) (acc : List (String × String)) (e : QErr),
    buildFromListLoop suppress ck remWidgets acc ks = .error e → QErr.key e ∉ suppress := by
  intro ks
  induction ks with
  | nil => intro acc e h; simp [buildFromListLoop] at h
  | cons k rest ih =>
    intro acc e h
    simp only [buildFromListLoop] at h
    rcases hcm : (if ck then complement acc k remWidgets else (acc, false)) with ⟨acc2, b⟩
    rw [hcm] at h
    cases b
    · split at h
      · exact ih _ _ h
      · split at h
        · exact ih _ _ h
        · rename_i h1
          simp only [Except.error.injEq] at h
          subst h
          simpa [QErr.key] using h1
    · exact ih _ _ h

/-- In list mode with `complement_keys` off, the loop adds nothing to the
exact matches. -/
theorem buildFromListLoop_ok_no_complement (suppress : List String)
    (remWidgets : List String) : ∀ (ks : List String) (acc r : List (String × String)),
    buildFromListLoop suppress false remWidgets acc ks = .ok r → r = acc := by
  intro ks
  induction ks with
  | nil =>
    intro acc r h
    simp only [buildFromListLoop, Except.ok.injEq] at h
    exact h.symm
  | cons k rest ih =>
    intro acc r h
    simp only [buildFromListLoop, if_neg (Bool.false_ne_true)] at h
    split at h
    · exact ih _ _ h
    · simp at h

theorem lookupA_foldl_upsert_self (l : List String) (init : List (String × String))
    (k : String) (hk : k ∉ l) :
    lookupA (l.foldl (fun acc x => upsertA acc x x) init) k = lookupA init k := by
  induction l generalizing init with
  | nil => rfl
  | cons x xs ih =>
    simp only [List.foldl_cons]
    rw [ih _ (fun h => hk (List.mem_cons_of_mem _ h))]
    exact lookupA_upsert_ne _ _ _ _ (fun he => hk (he ▸ List.mem_cons_self _ _))

/-- C2 (amended): a key listed in `suppress_errors` with no matching
identifier never causes `build()` to raise, in either mode.  But it is
absent from the resulting built map only in list mode when it is not
fuzzy-completed; in dict mode `built_data` is the input dict itself, so the
suppressed key stays present, mapped to its original identifier. -/
theorem c2_suppressed_key_never_raises (suppress : List String) (ck : Bool)
    (widgets : List String) (k : String) (pairs : List (String × String))
    (keys : List String) (hs : k ∈ suppress) (hw : k ∉ widgets) :
    (∀ e, loaderBuild (.dictData pairs) suppress ck widgets = .error e → QErr.key e ≠ k) ∧
    (∀ r, loaderBuild (.dictData pairs) suppress ck widgets = .ok r →
      lookupA r k = lookupA pairs k) ∧
    (∀ e, loaderBuild (.listData keys) suppress ck widgets = .error e → QErr.key e ≠ k) ∧
    (ck = false → ∀ r, loaderBuild (.listData keys) suppress ck widgets = .ok r →
      lookupA r k = none) := by
  refine ⟨?_, ?_, ?_, ?_⟩
  · intro e h he
    exact validateKeyPresence_error_not_suppressed suppress ck widgets pairs pairs e h (he ▸ hs)
  · intro r h
    exact validateKeyPresence_ok_lookup suppress ck widgets k hs pairs pairs r h
  · intro e h he
    exact buildFromListLoop_error_not_suppressed suppress ck _ _ _ e h (he ▸ hs)
  · intro hck r h
    subst hck
    have hr := buildFromListLoop_ok_no_complement suppress _ _ _ r h
    subst hr
    have hkm : k ∉ keys.filter (fun x => x ∈ widgets) := by
      intro hmem
      exact hw (by simpa using (List.mem_filter.mp hmem).2)
    rw [lookupA_foldl_upsert_self _ _ _ hkm]
    rfl

/-- C2's counterexample to the claim as stated: in dict mode the suppressed
key `a` (whose identifier `nope` matches no widget) does not raise — but it
is present in the resulting built map, not absent. -/
theorem c2_counterexample_dict_mode_key_present :
    loaderBuild (.dictData [("a", "nope")]) ["a"] false ["w"] = .ok [("a", "nope")] ∧
    lookupA [("a", "nope")] "a" = some "nope" := by
  decide

/-- Witness for `c2_suppressed_key_never_raises` at a concrete input. -/
theorem c2_suppressed_key_never_raises_witness :
    loaderBuild (.listData ["s"]) ["s"] false ["w"] = .ok [] ∧
    lookupA ([] : List (String × String)) "s" = none :=
  ⟨by decide,
    (c2_suppressed_key_never_raises ["s"] false ["w"] "s" [] ["s"]
      (by decide) (by decide)).2.2.2 rfl [] (by decide)⟩

/-! ### C4 — the no-loader branch stops silently at the first unmatched
leaf -/

/-- C4: in `_build_widget_hooks`, once the walk reaches a leaf entry (the
duplicate-hook check passing), an exact identifier match hooks the key and
continues with the later siblings, while a missing match makes the call
`return` at once: the current state comes back unchanged as a success — the
unmatched key and every later sibling of the same dict get no hook, and no
error is raised. -/
theorem c4_unmatched_leaf_stops_subtree (name : String) (recursive allowMultiple : Bool)
    (widgetNames : List String) (k : String) (v : CVal) (rest : CTree) (st : HookSt)
    (hchk : allowMultiple = true ∨ checkWidgetNotHooked st.registry k = none)
    (hleaf : ∀ sub, v ≠ CVal.dict sub) :
    (k ∉ widgetNames →
      buildItems name recursive allowMultiple widgetNames (.cons k v rest) st = .ok st) ∧
    (k ∈ widgetNames →
      buildItems name recursive allowMultiple widgetNames (.cons k v rest) st =
        buildItems name recursive allowMultiple widgetNames rest
          { hooks := upsertA st.hooks k k, registry := appendClaim st.registry name k }) := by
  have hscrut : (if allowMultiple then none else checkWidgetNotHooked st.registry k) =
      (none : Option String) := by
    rcases hchk with h | h
    · simp [h]
    · cases allowMultiple <;> simp [h]
  constructor
  · intro hk
    cases v with
    | dict sub => exact absurd rfl (hleaf sub)
    | bool b => simp [buildItems, hscrut, hk]
    | int n => simp [buildItems, hscrut, hk]
    | str s => simp [buildItems, hscrut, hk]
  · intro hk
    cases v with
    | dict sub => exact absurd rfl (hleaf sub)
    | bool b => simp [buildItems, hscrut, hk]
    | int n => simp [buildItems, hscrut, hk]
    | str s => simp [buildItems, hscrut, hk]

/-- Witness for `c4_unmatched_leaf_stops_subtree`: the key `k2` matches no
widget, so it and its later sibling `k3` are skipped and the build returns
the incoming state unchanged, with no error. -/
theorem c4_unmatched_leaf_stops_subtree_witness :
    buildItems "A" true false ["w1"]
      (.cons "k2" (.int 5) (.cons "k3" (.int 6) .nil)) ⟨[], []⟩ = .ok ⟨[], []⟩ :=
  (c4_unmatched_leaf_stops_subtree "A" true false ["w1"] "k2" (.int 5)
    (.cons "k3" (.int 6) .nil) ⟨[], []⟩ (Or.inr rfl) (by intro sub; simp)).1 (by decide)

/-! ### C5 — the loader branch resolves exact-first and hard-fails -/

/-- C5: in `_build_widget_hooks_from_loader`, a reached leaf entry (the
duplicate-hook check passing) is resolved by exact identifier match first;
otherwise through the loader's `built_data`; a key in neither raises
`WidgetNotFoundError` — a hard fail at every position in the tree, never a
silent skip. -/
theorem c5_loader_leaf_resolution (name : String) (recursive allowMultiple : Bool)
    (widgetNames : List String) (built : List (String × String)) (k : String) (v : CVal)
    (rest : CTree) (st : HookSt)
    (hchk : allowMultiple = true ∨ checkWidgetNotHooked st.registry k = none)
    (hleaf : ∀ sub, v ≠ CVal.dict sub) :
    (k ∈ widgetNames →
      buildItemsLoader name recursive allowMultiple widgetNames built (.cons k v rest) st =
        buildItemsLoader name recursive allowMultiple widgetNames built rest
          { hooks := upsertA st.hooks k k, registry := appendClaim st.registry name k }) ∧
    (k ∉ widgetNames → ∀ w, lookupA built k = some w → w ∈ widgetNames →
      buildItemsLoader name recursive allowMultiple widgetNames built (.cons k v rest) st =
        buildItemsLoader name recursive allowMultiple widgetNames built rest
          { hooks := upsertA st.hooks k w, registry := appendClaim st.registry name w }) ∧
    (k ∉ widgetNames → lookupA built k = none →
      buildItemsLoader name recursive allowMultiple widgetNames built (.cons k v rest) st =
        .error (.widgetNotFound k)) := by
  have hscrut : (if allowMultiple then none else checkWidgetNotHooked st.registry k) =
      (none : Option String) := by
    rcases hchk with h | h
    · simp [h]
    · cases allowMultiple <;> simp [h]
  refine ⟨?_, ?_, ?_⟩
  · intro hk
    cases v with
    | dict sub => exact absurd rfl (hleaf sub)
    | bool b => simp [buildItemsLoader, hscrut, hk]
    | int n => simp [buildItemsLoader, hscrut, hk]
    | str s => simp [buildItemsLoader, hscrut, hk]
  · intro hk w hb hw
    cases v with
    | dict sub => exact absurd rfl (hleaf sub)
    | bool b => simp [buildItemsLoader, hscrut, hk, hb, hw]
    | int n => simp [buildItemsLoader, hscrut, hk, hb, hw]
    | str s => simp [buildItemsLoader, hscrut, hk, hb, hw]
  · intro hk hb
    cases v with
    | dict sub => exact absurd rfl (hleaf sub)
    | bool b => simp [buildItemsLoader, hscrut, hk, hb]
    | int n => simp [buildItemsLoader, hscrut, hk, hb]
    | str s => simp [buildItemsLoader, hscrut, hk, hb]

/-- Witness for `c5_loader_leaf_resolution`: the leaf `choice` matches no
widget and the loader build maps it nowhere, so hook construction raises
`WidgetNotFoundError` for it. -/
theorem c5_loader_leaf_resolution_witness :
    buildItemsLoader "A" true false ["age"] [("other", "age")]
      (.cons "choice" (.str "x") .nil) ⟨[], []⟩ = .error (.widgetNotFound "choice") :=
  (c5_loader_leaf_resolution "A" true false ["age"] [("other", "age")] "choice" (.str "x")
    .nil ⟨[], []⟩ (Or.inr rfl) (by intro sub; simp)).2.2 (by decide) (by decide)

/-! ### C10 — disconnecting the original callback misses the wrapper -/

theorem connectStep_mem (cb : Nat) (ex : Option (List String)) (s : CBState)
    (kw : String × String) (k : String) (r : CBRef)
    (h : r ∈ (lookupA s.signals k).getD []) :
    r ∈ (lookupA (connectStep cb ex s kw).signals k).getD [] := by
  unfold connectStep
  split
  · exact h
  · simp only
    by_cases hk : kw.1 = k
    · subst hk
      rw [lookupA_upsert_eq]
      simp only [Option.getD_some]
      exact List.mem_append_left _ h
    · rw [lookupA_upsert_ne _ _ _ _ hk]
      exact h

theorem connectFold_mem (cb : Nat) (ex : Option (List String)) :
    ∀ (l : List (String × String)) (s : CBState) (k : String) (r : CBRef),
    r ∈ (lookupA s.signals k).getD [] →
    r ∈ (lookupA ((l.foldl (connectStep cb ex) s).signals) k).getD [] := by
  intro l
  induction l with
  | nil => intro s k r h; exact h
  | cons x xs ih =>
    intro s k r h
    exact ih _ _ _ (connectStep_mem cb ex s x k r h)

theorem connectStep_hooks (cb : Nat) (ex : Option (List String)) (s : CBState)
    (kw : String × String) : (connectStep cb ex s kw).hooks = s.hooks := by
  unfold connectStep
  split <;> rfl

theorem connectFold_hooks (cb : Nat) (ex : Option (List String)) :
    ∀ (l : List (String × String)) (s : CBState),
    (l.foldl (connectStep cb ex) s).hooks = s.hooks := by
  intro l
  induction l with
  | nil => intro s; rfl
  | cons x xs ih =>
    intro s
    simp only [List.foldl_cons]
    rw [ih, connectStep_hooks]

theorem connect_callback_hooks (st : CBState) (cb : Nat) (ex : Option (List String)) :
    (connect_callback st cb ex).hooks = st.hooks :=
  connectFold_hooks cb ex st.hooks st

theorem connectStep_no_named (cb : Nat) (ex : Option (List String)) (s : CBState)
    (kw : String × String) (c : Nat) (k : String)
    (h : CBRef.named c ∉ (lookupA s.signals k).getD []) :
    CBRef.named c ∉ (lookupA (connectStep cb ex s kw).signals k).getD [] := by
  unfold connectStep
  split
  · exact h
  · simp only
    by_cases hk : kw.1 = k
    · subst hk
      rw [lookupA_upsert_eq]
      simp only [Option.getD_some]
      intro hmem
      rcases List.mem_append.mp hmem with hmem | hmem
      · exact h hmem
      · simp at hmem
    · rw [lookupA_upsert_ne _ _ _ _ hk]
      exact h

theorem connectFold_no_named (cb : Nat) (ex : Option (List String)) :
    ∀ (l : List (String × String)) (s : CBState) (c : Nat) (k : String),
    CBRef.named c ∉ (lookupA s.signals k).getD [] →
    CBRef.named c ∉ (lookupA ((l.foldl (connectStep cb ex) s).signals) k).getD [] := by
  intro l
  induction l with
  | nil => intro s c k h; exact h
  | cons x xs ih =>
    intro s c k h
    exact ih _ _ _ (connectStep_no_named cb ex s x c k h)

theorem connectFold_adds_wrapper (cb : Nat) :
    ∀ (l : List (String × String)) (s : CBState) (kw : String × String), kw ∈ l →
    ∃ uid, CBRef.wrapper uid cb ∈
      (lookupA ((l.foldl (connectStep cb none) s).signals) kw.1).getD [] := by
  intro l
  induction l with
  | nil => intro s kw h; cases h
  | cons x xs ih =>
    intro s kw h
    rcases List.mem_cons.mp h with h | h
    · subst h
      simp only [List.foldl_cons]
      refine ⟨s.nextId, ?_⟩
      apply connectFold_mem
      show CBRef.wrapper s.nextId cb ∈ (lookupA (connectStep cb none s kw).signals kw.1).getD []
      unfold connectStep
      simp [lookupA_upsert_eq]
    · simp only [List.foldl_cons]
      exact ih _ _ h

theorem disconnectFold_no_named_noop (c : Nat) :
    ∀ (l : List (String × String)) (s : CBState),
    (∀ kw ∈ l, CBRef.named c ∉ (lookupA s.signals kw.1).getD []) →
    ((l.foldl (disconnectStep (some c) none) s).signals) = s.signals := by
  intro l
  induction l with
  | nil => intro s _; rfl
  | cons x xs ih =>
    intro s h
    simp only [List.foldl_cons]
    have hstep : (disconnectStep (some c) none s x).signals = s.signals := by
      unfold disconnectStep
      rw [if_neg (by simp)]
      simp only
      rw [if_neg (h x (List.mem_cons_self _ _))]
    have hlog : ∀ k, (lookupA ((disconnectStep (some c) none s x).signals) k).getD [] =
        (lookupA s.signals k).getD [] := by
      intro k; rw [hstep]
    rw [ih _ (fun kw hkw => by rw [hlog]; exact h kw (List.mem_cons_of_mem _ hkw))]
    exact hstep

/-- C10: `connect_callback` connects a freshly created zero-argument
wrapper rather than the callback itself, so a following
`disconnect_callback(cb)` finds `cb` on no hook: every signal's connection
list is left exactly as `connect_callback` produced it (only the failure
log grows), and each hook still carries the wrapper that was attached.  In
particular, switching `save_on_change` off leaves the auto-pull handler
that switching it on attached still connected. -/
theorem c10_disconnect_leaves_wrapper_connected (st : CBState) (cb : Nat)
    (hno : ∀ kw ∈ st.hooks, CBRef.named cb ∉ (lookupA st.signals kw.1).getD []) :
    ((disconnect_callback (connect_callback st cb none) (some cb) none).signals =
      (connect_callback st cb none).signals) ∧
    (∀ kw ∈ st.hooks, ∃ uid, CBRef.wrapper uid cb ∈
      (lookupA ((disconnect_callback (connect_callback st cb none) (some cb) none).signals)
        kw.1).getD []) ∧
    (st.saveOnChange = false → cb = getDataToken →
      (setSaveOnChange (setSaveOnChange st true) false).signals =
        (setSaveOnChange st true).signals) := by
  have hsig : (disconnect_callback (connect_callback st cb none) (some cb) none).signals =
      (connect_callback st cb none).signals := by
    unfold disconnect_callback
    rw [connect_callback_hooks]
    apply disconnectFold_no_named_noop
    intro kw hkw
    exact connectFold_no_named cb none st.hooks st cb kw.1 (hno kw hkw)
  refine ⟨hsig, ?_, ?_⟩
  · intro kw hkw
    rw [hsig]
    exact connectFold_adds_wrapper cb st.hooks st kw hkw
  · intro hsoc hcb
    subst hcb
    have hY : setSaveOnChange st true =
        { connect_callback st getDataToken none with saveOnChange := true } := by
      unfold setSaveOnChange
      rw [if_neg (by rw [hsoc]; simp)]
      rfl
    have main : ∀ Y : CBState, Y.hooks = st.hooks →
        Y.signals = (connect_callback st getDataToken none).signals →
        Y.saveOnChange = true →
        (setSaveOnChange Y false).signals = Y.signals := by
      intro Y hh hs hv
      unfold setSaveOnChange
      rw [if_neg (by rw [hv]; simp)]
      rw [if_neg (by simp)]
      show (disconnect_callback Y (some getDataToken) none).signals = Y.signals
      unfold disconnect_callback
      rw [hh]
      apply disconnectFold_no_named_noop
      intro kw hkw
      rw [hs]
      exact connectFold_no_named getDataToken none st.hooks st getDataToken kw.1 (hno kw hkw)
    exact main _ (by rw [hY]; exact connect_callback_hooks st getDataToken none)
      (by rw [hY]) (by rw [hY])

/-- Witness for `c10_disconnect_leaves_wrapper_connected`: one hook `k`,
callback token `7`; after connect-then-disconnect the wrapper is still
connected. -/
theorem c10_disconnect_leaves_wrapper_connected_witness :
    (disconnect_callback (connect_callback ⟨[("k", "k")], [], 0, [], false⟩ 7 none)
      (some 7) none).signals = [("k", [.wrapper 0 7])] :=
  ((c10_disconnect_leaves_wrapper_connected ⟨[("k", "k")], [], 0, [], false⟩ 7
    (by decide)).1).trans (by decide)

/-! ### C9 — round trip `get_data` after `set_data` -/

theorem leafAssoc_cons_leaf (k : String) (v : CVal) (rest : CTree)
    (h : ∀ sub, v ≠ CVal.dict sub) :
    leafAssoc (.cons k v rest) = (k, v) :: leafAssoc rest := by
  cases v with
  | dict sub => exact absurd rfl (h sub)
  | bool b => rfl
  | int n => rfl
  | str s => rfl

/-- The effect of pushing a sequence of leaf writes into the widget map, in
order. -/
def applyWrites (l : List (String × CVal)) (store : String → CVal) : String → CVal :=
  l.foldl (fun s kv => fun x => if x = kv.1 then kv.2 else s x) store

theorem applyWrites_notmem (l : List (String × CVal)) (store : String → CVal) (k : String)
    (h : k ∉ l.map Prod.fst) : applyWrites l store k = store k := by
  induction l generalizing store with
  | nil => rfl
  | cons kv rest ih =>
    have hk : k ≠ kv.1 := fun he => h (by simp [he])
    rw [applyWrites, List.foldl_cons]
    show applyWrites rest _ k = _
    rw [ih _ (fun hm => h (List.mem_cons_of_mem _ hm))]
    simp [hk]

theorem applyWrites_mem (l : List (String × CVal)) (store : String → CVal) (k : String)
    (v : CVal) (hnd : (l.map Prod.fst).Nodup) (h : (k, v) ∈ l) :
    applyWrites l store k = v := by
  induction l generalizing store with
  | nil => cases h
  | cons kv rest ih =>
    rw [applyWrites, List.foldl_cons]
    show applyWrites rest _ k = v
    rcases List.mem_cons.mp h with h | h
    · subst h
      rw [applyWrites_notmem _ _ _ (by simpa using (List.nodup_cons.mp hnd).1)]
      simp
    · exact ih _ (List.nodup_cons.mp hnd).2 h

theorem setTree_cons_leaf (hooks : List (String × String)) (k : String) (v : CVal)
    (rest : CTree) (store : String → CVal) (h : ∀ sub, v ≠ CVal.dict sub) :
    setTree hooks (.cons k v rest) store =
      match lookupA hooks k with
      | none => .error (.keyError k)
      | some w => setTree hooks rest (fun x => if x = w then v else store x) := by
  cases v with
  | dict sub => exact absurd rfl (h sub)
  | bool b => rfl
  | int n => rfl
  | str s => rfl

/-- Pushing a tree whose every leaf key is hooked to the widget of the same
name writes exactly the leaf assignments, in walk order. -/
theorem setTree_ok (hooks : List (String × String)) (t : CTree)
    (hh : ∀ k ∈ leafKeys t, lookupA hooks k = some k) :
    ∀ store, setTree hooks t store = .ok (applyWrites (leafAssoc t) store) := by
  induction t using CTree.inductLeaf with
  | h1 => intro store; rfl
  | h2 k sub rest ihsub ihrest =>
    intro store
    have hsub : ∀ k2 ∈ leafKeys sub, lookupA hooks k2 = some k2 := by
      intro k2 hk2
      exact hh k2 (by simp [leafKeys, leafAssoc] at hk2 ⊢; exact Or.inl hk2)
    have hrest : ∀ k2 ∈ leafKeys rest, lookupA hooks k2 = some k2 := by
      intro k2 hk2
      exact hh k2 (by simp [leafKeys, leafAssoc] at hk2 ⊢; exact Or.inr hk2)
    show (match setTree hooks sub store with
      | Except.error e => Except.error e
      | Except.ok s2 => setTree hooks rest s2) = _
    rw [ihsub hsub store]
    show setTree hooks rest (applyWrites (leafAssoc sub) store) = _
    rw [ihrest hrest _]
    simp only [leafAssoc, applyWrites, List.foldl_append]
  | h3 k v rest hv ihrest =>
    intro store
    rw [setTree_cons_leaf hooks k v rest store hv]
    have hk : lookupA hooks k = some k := by
      apply hh
      simp [leafKeys, leafAssoc_cons_leaf k v rest hv]
    rw [hk]
    have hrest : ∀ k2 ∈ leafKeys rest, lookupA hooks k2 = some k2 := by
      intro k2 hk2
      apply hh
      simp [leafKeys, leafAssoc_cons_leaf k v rest hv]
      exact Or.inr (by simpa [leafKeys] using hk2)
    show setTree hooks rest (fun x => if x = k then v else store x) =
      Except.ok (applyWrites (leafAssoc (CTree.cons k v rest)) store)
    rw [ihrest hrest _]
    rw [leafAssoc_cons_leaf k v rest hv]
    rfl

/-- What a pull produces when every leaf key is hooked to its own widget:
each leaf value replaced by that widget's current content. -/
def pullSpec (store : String → CVal) : CTree → CTree
  | .nil => .nil
  | .cons k (.dict sub) rest => .cons k (.dict (pullSpec store sub)) (pullSpec store rest)
  | .cons k _ rest => .cons k (store k) (pullSpec store rest)

theorem getTree_cons_leaf (hooks : List (String × String)) (store : String → CVal)
    (k : String) (v : CVal) (rest : CTree) (h : ∀ sub, v ≠ CVal.dict sub) :
    getTree hooks store (.cons k v rest) =
      match lookupA hooks k with
      | none => .error (.keyError k)
      | some w =>
        match getTree hooks store rest with
        | .error e => .error e
        | .ok rest2 => .ok (.cons k (store w) rest2) := by
  cases v with
  | dict sub => exact absurd rfl (h sub)
  | bool b => rfl
  | int n => rfl
  | str s => rfl

theorem pullSpec_cons_leaf (store : String → CVal) (k : String) (v : CVal) (rest : CTree)
    (h : ∀ sub, v ≠ CVal.dict sub) :
    pullSpec store (.cons k v rest) = .cons k (store k) (pullSpec store rest) := by
  cases v with
  | dict sub => exact absurd rfl (h sub)
  | bool b => rfl
  | int n => rfl
  | str s => rfl

theorem getTree_ok (hooks : List (String × String)) (store : String → CVal) (t : CTree)
    (hh : ∀ k ∈ leafKeys t, lookupA hooks k = some k) :
    getTree hooks store t = .ok (pullSpec store t) := by
  induction t using CTree.inductLeaf with
  | h1 => rfl
  | h2 k sub rest ihsub ihrest =>
    have hsub : ∀ k2 ∈ leafKeys sub, lookupA hooks k2 = some k2 := by
      intro k2 hk2
      exact hh k2 (by simp [leafKeys, leafAssoc] at hk2 ⊢; exact Or.inl hk2)
    have hrest : ∀ k2 ∈ leafKeys rest, lookupA hooks k2 = some k2 := by
      intro k2 hk2
      exact hh k2 (by simp [leafKeys, leafAssoc] at hk2 ⊢; exact Or.inr hk2)
    show (match getTree hooks store sub with
      | Except.error e => Except.error e
      | Except.ok sub2 =>
        match getTree hooks store rest with
        | Except.error e => Except.error e
        | Except.ok rest2 => Except.ok (CTree.cons k (.dict sub2) rest2)) = _
    rw [ihsub hsub, ihrest hrest]
    rfl
  | h3 k v rest hv ihrest =>
    rw [getTree_cons_leaf hooks store k v rest hv]
    have hk : lookupA hooks k = some k := by
      apply hh
      simp [leafKeys, leafAssoc_cons_leaf k v rest hv]
    rw [hk]
    have hrest : ∀ k2 ∈ leafKeys rest, lookupA hooks k2 = some k2 := by
      intro k2 hk2
      apply hh
      simp [leafKeys, leafAssoc_cons_leaf k v rest hv]
      exact Or.inr (by simpa [leafKeys] using hk2)
    show (match getTree hooks store rest with
      | Except.error e => Except.error e
      | Except.ok rest2 => Except.ok (CTree.cons k (store k) rest2)) = _
    rw [ihrest hrest]
    rw [pullSpec_cons_leaf store k v rest hv]

theorem pullSpec_id (store : String → CVal) (t : CTree)
    (h : ∀ kv ∈ leafAssoc t, store kv.1 = kv.2) : pullSpec store t = t := by
  induction t using CTree.inductLeaf with
  | h1 => rfl
  | h2 k sub rest ihsub ihrest =>
    show CTree.cons k (.dict (pullSpec store sub)) (pullSpec store rest) = _
    rw [ihsub (fun kv hkv => h kv (by simp [leafAssoc, hkv])),
      ihrest (fun kv hkv => h kv (by simp [leafAssoc, hkv]))]
  | h3 k v rest hv ihrest =>
    rw [pullSpec_cons_leaf store k v rest hv]
    rw [ihrest (fun kv hkv => h kv (by rw [leafAssoc_cons_leaf k v rest hv]; simp [hkv]))]
    rw [h (k, v) (by rw [leafAssoc_cons_leaf k v rest hv]; simp)]

/-- C9 (amended): for a tree whose leaf keys all exactly match control
identifiers (each leaf hooked to the widget of its own name) and are
pairwise distinct across the whole tree, `get_data` right after `set_data`
restores the data tree exactly, for boolean, integer and text leaves.
Distinctness is necessary: when a leaf key recurs across nesting levels the
duplicates share one hook, the last push wins, and the pull overwrites the
earlier leaf (see the counterexample). -/
theorem c9_round_trip (st : SyncSt)
    (hhooks : ∀ k ∈ leafKeys st.data, lookupA st.hooks k = some k)
    (hnd : (leafKeys st.data).Nodup)
    (hig : st.ignoreChanges = false) :
    Except.map SyncSt.data ((set_data st).bind get_data) = .ok st.data := by
  unfold set_data
  rw [if_neg (by rw [hig]; simp)]
  rw [setTree_ok st.hooks st.data hhooks st.store]
  show Except.map SyncSt.data (get_data _) = _
  unfold get_data
  rw [getTree_ok st.hooks _ st.data hhooks]
  show Except.ok (pullSpec (applyWrites (leafAssoc st.data) st.store) st.data) = _
  rw [pullSpec_id _ _ (fun kv hkv =>
    applyWrites_mem (leafAssoc st.data) st.store kv.1 kv.2 hnd
      (by rwa [← Prod.mk.eta (p := kv)] at hkv))]

/-- Witness for `c9_round_trip`: the spec's scenario data
`{"age": 19, "employed": false}` with exactly matching widgets. -/
theorem c9_round_trip_witness :
    Except.map SyncSt.data ((set_data
      { data := .cons "age" (.int 19) (.cons "employed" (.bool false) .nil)
        hooks := [("age", "age"), ("employed", "employed")]
        store := fun _ => .int 0
        ignoreChanges := false }).bind get_data) =
      .ok (.cons "age" (.int 19) (.cons "employed" (.bool false) .nil)) :=
  c9_round_trip _ (by decide) (by decide) rfl

/-- C9's counterexample to the claim as stated: in
`{"a": {"x": 1}, "x": 2}` every leaf key exactly matches the control
identifier `x`, yet pull-after-push turns the nested leaf into `2`: both
leaves share the single hook entry for `x`, so the tree is not reproduced. -/
theorem c9_counterexample_duplicate_leaf_key :
    (∀ k ∈ leafKeys (CTree.cons "a" (.dict (.cons "x" (.int 1) .nil))
        (.cons "x" (.int 2) .nil)),
      lookupA [("x", "x")] k = some k) ∧
    Except.map SyncSt.data ((set_data
      { data := .cons "a" (.dict (.cons "x" (.int 1) .nil)) (.cons "x" (.int 2) .nil)
        hooks := [("x", "x")]
        store := fun _ => .int 0
        ignoreChanges := false }).bind get_data) =
      .ok (.cons "a" (.dict (.cons "x" (.int 2) .nil)) (.cons "x" (.int 2) .nil)) ∧
    CTree.cons "a" (.dict (.cons "x" (.int 2) .nil)) (.cons "x" (.int 2) .nil) ≠
      .cons "a" (.dict (.cons "x" (.int 1) .nil)) (.cons "x" (.int 2) .nil) :=
  ⟨by decide, rfl, by decide⟩

/-! ### C3 — fuzzy completion: threshold and best match -/

theorem ratioFrac_den_pos (x w : List Char) : 0 < (ratioFrac x w).2 := by
  unfold ratioFrac
  split
  · simp
  · rename_i h
    simp only
    omega

/-- Transitivity of fraction comparison by cross-multiplication. -/
theorem fracLe_trans (n1 d1 n2 d2 n3 d3 : Nat) (h2 : 0 < d2)
    (h12 : n1 * d2 ≤ n2 * d1) (h23 : n2 * d3 ≤ n3 * d2) : n1 * d3 ≤ n3 * d1 := by
  have hA : n1 * d2 * d3 ≤ n2 * d1 * d3 := Nat.mul_le_mul_right _ h12
  have hB : n2 * d3 * d1 ≤ n3 * d2 * d1 := Nat.mul_le_mul_right _ h23
  have hchain : n1 * d3 * d2 ≤ n3 * d1 * d2 := by
    calc n1 * d3 * d2 = n1 * d2 * d3 := by ring
      _ ≤ n2 * d1 * d3 := hA
      _ = n2 * d3 * d1 := by ring
      _ ≤ n3 * d2 * d1 := hB
      _ = n3 * d1 * d2 := by ring
  exact Nat.le_of_mul_le_mul_right hchain h2

theorem ratioLt_false_iff (w x y : List Char) :
    ratioLt w x y = false ↔
    (ratioFrac y w).1 * (ratioFrac x w).2 ≤ (ratioFrac x w).1 * (ratioFrac y w).2 := by
  simp [ratioLt, Nat.not_lt]

theorem ratioLt_irrefl (w x : List Char) : ratioLt w x x = false := by
  simp [ratioLt]

theorem ratioLt_false_trans (w a b c : List Char)
    (h1 : ratioLt w a b = false) (h2 : ratioLt w b c = false) :
    ratioLt w a c = false := by
  rw [ratioLt_false_iff] at h1 h2 ⊢
  exact fracLe_trans _ _ _ _ _ _ (ratioFrac_den_pos b w) h2 h1

/-- A candidate that displaces the current best in `pickBetter` scores at
least as much as it did. -/
theorem pickBetter_cond_le (w c x : List Char) (d : Bool)
    (h : (ratioLt w c x || (ratioEq w c x && d)) = true) :
    (ratioFrac c w).1 * (ratioFrac x w).2 ≤ (ratioFrac x w).1 * (ratioFrac c w).2 := by
  simp only [Bool.or_eq_true] at h
  rcases h with h | h
  · simp only [ratioLt, decide_eq_true_eq] at h
    exact Nat.le_of_lt h
  · have he := (Bool.and_eq_true _ _).mp h
    simp only [ratioEq, decide_eq_true_eq] at he
    exact Nat.le_of_eq he.1

/-- The left fold of `pickBetter` returns a member of the processed list
(or the prior best) which no processed candidate and no prior best strictly
beats on score. -/
theorem pickBetter_max (w : List Char) : ∀ (l : List String) (b : Option String) (m : String),
    l.foldl (pickBetter w) b = some m →
    (m ∈ l ∨ b = some m) ∧
    (∀ x ∈ l, ratioLt w m.toList x.toList = false) ∧
    (∀ c, b = some c → ratioLt w m.toList c.toList = false) := by
  intro l
  induction l with
  | nil =>
    intro b m h
    simp only [List.foldl_nil] at h
    refine ⟨Or.inr h, by simp, fun c hc => ?_⟩
    rw [hc] at h
    cases h
    exact ratioLt_irrefl w m.toList
  | cons x xs ih =>
    intro b m h
    rw [List.foldl_cons] at h
    obtain ⟨hmem, hall, hbase⟩ := ih (pickBetter w b x) m h
    have hx : ratioLt w m.toList x.toList = false := by
      cases b with
      | none => exact hbase x rfl
      | some c =>
        by_cases hcond : (ratioLt w c.toList x.toList ||
            (ratioEq w c.toList x.toList && decide (c < x))) = true
        · exact hbase x (by simp only [pickBetter]; rw [if_pos hcond])
        · have hcf : ratioLt w c.toList x.toList = false := by
            have h2 := hcond
            simp only [Bool.or_eq_true, not_or, Bool.not_eq_true] at h2
            exact h2.1
          exact ratioLt_false_trans w m.toList c.toList x.toList
            (hbase c (by simp only [pickBetter]; rw [if_neg hcond])) hcf
    have hb2 : ∀ c, b = some c → ratioLt w m.toList c.toList = false := by
      intro c hc
      subst hc
      by_cases hcond : (ratioLt w c.toList x.toList ||
          (ratioEq w c.toList x.toList && decide (c < x))) = true
      · have hxm := hbase x (by simp only [pickBetter]; rw [if_pos hcond])
        have hcx := pickBetter_cond_le w c.toList x.toList _ hcond
        rw [ratioLt_false_iff] at hxm ⊢
        exact fracLe_trans _ _ _ _ _ _ (ratioFrac_den_pos x.toList w) hcx hxm
      · exact hbase c (by simp only [pickBetter]; rw [if_neg hcond])
    have hmem2 : m ∈ x :: xs ∨ b = some m := by
      rcases hmem with hm | hm
      · exact Or.inl (List.mem_cons_of_mem _ hm)
      · cases b with
        | none =>
          have hxm : some x = some m := hm
          obtain rfl := Option.some.inj hxm
          exact Or.inl (List.mem_cons_self _ _)
        | some c =>
          by_cases hcond : (ratioLt w c.toList x.toList ||
              (ratioEq w c.toList x.toList && decide (c < x))) = true
          · have hxm : some x = some m := by
              rw [← hm]
              simp only [pickBetter]
              rw [if_pos hcond]
            obtain rfl := Option.some.inj hxm
            exact Or.inl (List.mem_cons_self _ _)
          · have hcm : some c = some m := by
              rw [← hm]
              simp only [pickBetter]
              rw [if_neg hcond]
            exact Or.inr hcm
    refine ⟨hmem2, fun y hy => ?_, hb2⟩
    rcases List.mem_cons.mp hy with hy | hy
    · exact hy ▸ hx
    · exact hall y hy

/-- C3 (amended): approximate completion takes the single best fuzzy match
and accepts it when its normalized similarity score is AT LEAST `0.43`
(difflib's cutoff test is inclusive; a score of exactly `0.43` is accepted,
see the counterexample); with identifiers
`["user_name", "date_of_birth"]`, key `"user"` completes to `"user_name"`
while `"xyz123"` finds no match and falls through without error. -/
theorem c3_fuzzy_completion_threshold (data : List (String × String)) (key : String)
    (widgets : List String) :
    ((complement data key widgets).2 = true →
      ∃ m, getCloseMatch1 key widgets = some m ∧
        (complement data key widgets).1 = upsertA data key m ∧
        m ∈ widgets ∧
        ratioGeCutoff m.toList key.toList = true ∧
        (∀ x ∈ widgets, ratioGeCutoff x.toList key.toList = true →
          ratioLt key.toList m.toList x.toList = false)) ∧
    getCloseMatch1 "user" ["user_name", "date_of_birth"] = some "user_name" ∧
    getCloseMatch1 "xyz123" ["user_name", "date_of_birth"] = none ∧
    complement data "xyz123" ["user_name", "date_of_birth"] = (data, false) := by
  refine ⟨?_, by decide, by decide, ?_⟩
  · intro hc
    rcases hg : getCloseMatch1 key widgets with _ | m
    · rw [complement, hg] at hc
      simp at hc
    · rw [complement, hg]
      have hfold : (widgets.filter
          (fun x => ratioGeCutoff x.toList key.toList)).foldl
            (pickBetter key.toList) none = some m := by
        rw [← hg]
        rfl
      obtain ⟨hmem, hall, _⟩ := pickBetter_max key.toList _ none m hfold
      rcases hmem with hm | hm
      · have hmf := List.mem_filter.mp hm
        exact ⟨m, rfl, rfl, hmf.1, hmf.2, fun x hx hacc =>
          hall x (List.mem_filter.mpr ⟨hx, hacc⟩)⟩
      · cases hm
  · rw [complement]
    rw [show getCloseMatch1 "xyz123" ["user_name", "date_of_birth"] = none from by decide]

/-- Witness for `c3_fuzzy_completion_threshold` at the spec's own inputs. -/
theorem c3_fuzzy_completion_threshold_witness :
    complement [] "user" ["user_name", "date_of_birth"] = ([("user", "user_name")], true) ∧
    getCloseMatch1 "user" ["user_name", "date_of_birth"] = some "user_name" :=
  ⟨by decide, (c3_fuzzy_completion_threshold [] "user" ["user_name", "date_of_birth"]).2.1⟩

/-- A fold whose step fixes the accumulator leaves it unchanged. -/
theorem foldl_fixed {α β : Type} (f : β → α → β) (l : List α) (b : β)
    (h : ∀ x ∈ l, f b x = b) : l.foldl f b = b := by
  induction l with
  | nil => rfl
  | cons x xs ih =>
    rw [List.foldl_cons, h x (List.mem_cons_self _ _)]
    exact ih (fun y hy => h y (List.mem_cons_of_mem _ hy))

theorem commonRun_replicate_append (n : Nat) (c : Char) (xs : List Char) :
    commonRun (List.replicate n c ++ xs) (List.replicate n c) = n := by
  induction n with
  | zero =>
    cases xs with
    | nil => rfl
    | cons y ys => rfl
  | succ n ih =>
    show (if c = c then commonRun (List.replicate n c ++ xs) (List.replicate n c) + 1 else 0) =
      n + 1
    rw [if_pos rfl, ih]

/-- Once the best block is as long as `b` itself, no candidate can beat
it. -/
theorem flmCand_keep (a b : List Char) (i j : Nat) (best : Nat × Nat × Nat)
    (h : b.length ≤ best.2.2) : flmCand a b i best j = best := by
  unfold flmCand
  rw [if_neg]
  have h1 := commonRun_le_right (a.drop i) (b.drop j)
  have h2 : (b.drop j).length ≤ b.length := by simp
  omega

theorem flmCand_foldl_keep (a b : List Char) (i : Nat) (l : List Nat)
    (best : Nat × Nat × Nat) (h : b.length ≤ best.2.2) :
    l.foldl (flmCand a b i) best = best :=
  foldl_fixed _ _ _ (fun j _ => flmCand_keep a b i j best h)

theorem flmStep_keep (a b : List Char) (i : Nat) (best : Nat × Nat × Nat)
    (h : b.length ≤ best.2.2) : flmStep a b best i = best :=
  flmCand_foldl_keep a b i _ best h

theorem findLongestMatch_nil_right (a : List Char) :
    findLongestMatch a [] = (0, 0, 0) := by
  unfold findLongestMatch
  exact foldl_fixed _ _ _ (fun i _ => flmStep_keep a [] i (0, 0, 0) (by simp))

/-- When all of `b` matches a prefix of `a`, the longest matching block is
`(0, 0, len b)`: found first at offsets `(0, 0)`, nothing longer exists. -/
theorem findLongestMatch_full_prefix (a b : List Char)
    (hab : commonRun a b = b.length) (hb : 0 < b.length) (ha : 0 < a.length) :
    findLongestMatch a b = (0, 0, b.length) := by
  unfold findLongestMatch
  obtain ⟨n, hn⟩ : ∃ n, a.length = n + 1 := ⟨a.length - 1, by omega⟩
  obtain ⟨m, hm⟩ : ∃ m, b.length = m + 1 := ⟨b.length - 1, by omega⟩
  rw [show List.range a.length = 0 :: List.map Nat.succ (List.range n) from by
    rw [hn, List.range_succ_eq_map]]
  rw [List.foldl_cons]
  have hfirst : flmStep a b (0, 0, 0) 0 = (0, 0, b.length) := by
    unfold flmStep
    rw [show List.range b.length = 0 :: List.map Nat.succ (List.range m) from by
      rw [hm, List.range_succ_eq_map]]
    rw [List.foldl_cons]
    have hc0 : flmCand a b 0 (0, 0, 0) 0 = (0, 0, b.length) := by
      unfold flmCand
      rw [List.drop_zero, List.drop_zero, hab]
      rw [show (((0, 0, 0) : Nat × Nat × Nat)).2.2 = 0 from rfl]
      rw [if_pos hb]
    rw [hc0]
    exact flmCand_foldl_keep a b 0 _ _ (le_refl b.length)
  rw [hfirst]
  exact foldl_fixed _ _ _ (fun i _ => flmStep_keep a b i _ (le_refl b.length))

theorem matchingTotalAux_succ (fuel : Nat) (a b : List Char) :
    matchingTotalAux (fuel + 1) a b =
      if (findLongestMatch a b).2.2 = 0 then 0
      else
        matchingTotalAux fuel (a.take (findLongestMatch a b).1)
            (b.take (findLongestMatch a b).2.1) +
          (findLongestMatch a b).2.2 +
          matchingTotalAux fuel (a.drop ((findLongestMatch a b).1 + (findLongestMatch a b).2.2))
            (b.drop ((findLongestMatch a b).2.1 + (findLongestMatch a b).2.2)) := rfl

theorem matchingTotalAux_nil_right (fuel : Nat) (a : List Char) :
    matchingTotalAux fuel a [] = 0 := by
  cases fuel with
  | zero => rfl
  | succ fuel =>
    rw [matchingTotalAux_succ, findLongestMatch_nil_right]
    simp

/-- The matching total of the boundary pair: the whole 43-character key
matches the candidate's prefix and nothing else matches, so `M = 43` while
`T = 157 + 43 = 200` — a ratio of exactly `2*43/200 = 0.43`. -/
theorem matchingTotal_boundary :
    matchingTotal (List.replicate 43 'a' ++ List.replicate 114 'b')
      (List.replicate 43 'a') = 43 := by
  have hlen_a : (List.replicate 43 'a' ++ List.replicate 114 'b').length = 157 := by simp
  have hlen_b : (List.replicate 43 'a').length = 43 := by simp
  have hflm : findLongestMatch (List.replicate 43 'a' ++ List.replicate 114 'b')
      (List.replicate 43 'a') = (0, 0, 43) := by
    have := findLongestMatch_full_prefix
      (List.replicate 43 'a' ++ List.replicate 114 'b') (List.replicate 43 'a')
      (by rw [commonRun_replicate_append, hlen_b]) (by omega) (by omega)
    rwa [hlen_b] at this
  unfold matchingTotal
  rw [hlen_a, hlen_b]
  rw [show (157 : Nat) + 43 = 199 + 1 from rfl, matchingTotalAux_succ, hflm]
  simp only
  rw [if_neg (by omega)]
  rw [List.take_zero, List.take_zero]
  simp only [Nat.zero_add]
  rw [show (List.replicate 43 'a' ++ List.replicate 114 'b').drop 43 =
    List.replicate 114 'b' from by
      rw [show (43 : Nat) = (List.replicate 43 'a').length from by simp]
      exact List.drop_left _ _]
  rw [show (List.replicate 43 'a').drop 43 = [] from by simp]
  rw [matchingTotalAux_nil_right, matchingTotalAux_nil_right]

/-- The unresolved key of the boundary pair: 43 copies of `a`. -/
def c3Key : String := String.mk (List.replicate 43 'a')

/-- The candidate identifier of the boundary pair: the key followed by 114
copies of `b`, for a total length of `200`. -/
def c3Wid : String := String.mk (List.replicate 43 'a' ++ List.replicate 114 'b')

/-- C3's counterexample to the claim as stated: this candidate's similarity
score is exactly `0.43` (`2*43/200`), which does NOT exceed the threshold,
yet `get_close_matches` (whose cutoff test is `ratio >= cutoff`) accepts it
and `_complement` completes the key to it. -/
theorem c3_counterexample_score_exactly_cutoff :
    ratioFrac c3Wid.toList c3Key.toList = (86, 200) ∧
    ratioGeCutoff c3Wid.toList c3Key.toList = true ∧
    (complement [] c3Key [c3Wid]).2 = true ∧
    ¬ (43 * (ratioFrac c3Wid.toList c3Key.toList).2 <
        100 * (ratioFrac c3Wid.toList c3Key.toList).1) := by
  have htl_w : c3Wid.toList = List.replicate 43 'a' ++ List.replicate 114 'b' := rfl
  have htl_k : c3Key.toList = List.replicate 43 'a' := rfl
  have hfrac : ratioFrac c3Wid.toList c3Key.toList = (86, 200) := by
    rw [htl_w, htl_k]
    unfold ratioFrac
    rw [if_neg (by simp)]
    rw [matchingTotal_boundary]
    norm_num [List.length_append, List.length_replicate]
  have hacc : ratioGeCutoff c3Wid.toList c3Key.toList = true := by
    unfold ratioGeCutoff
    rw [hfrac]
    decide
  refine ⟨hfrac, hacc, ?_, ?_⟩
  · have hacc2 : ratioGeCutoff c3Wid.data c3Key.data = true := hacc
    have hfilter : List.filter (fun x => ratioGeCutoff x.toList c3Key.toList) [c3Wid] =
        [c3Wid] := by
      simp [List.filter_cons, hacc2]
    have hg : getCloseMatch1 c3Key [c3Wid] = some c3Wid := by
      unfold getCloseMatch1
      rw [hfilter]
      rfl
    rw [complement, hg]
  · rw [hfrac]
    decide
/-! ### C6 — duplicate-hook prevention across binders -/

/-- A flat (un-nested) data dict from its entries. -/
def flatTreeOf : List (String × CVal) → CTree
  | [] => .nil
  | (k, v) :: rest => .cons k v (flatTreeOf rest)

theorem checkWidgetNotHooked_none_iff (reg : List (String × List String)) (w : String) :
    checkWidgetNotHooked reg w = none ↔ ∀ e ∈ reg, w ∉ e.2 := by
  induction reg with
  | nil => simp [checkWidgetNotHooked]
  | cons e rest ih =>
    obtain ⟨n, ws⟩ := e
    by_cases hw : w ∈ ws
    · simp [checkWidgetNotHooked, hw]
    · simp [checkWidgetNotHooked, hw, ih]

theorem checkWidgetNotHooked_append_left (regA rest : List (String × List String))
    (w : String) (o : String) (h : checkWidgetNotHooked regA w = some o) :
    checkWidgetNotHooked (regA ++ rest) w = some o := by
  induction regA with
  | nil => simp [checkWidgetNotHooked] at h
  | cons e regA ih =>
    obtain ⟨n, ws⟩ := e
    by_cases hw : w ∈ ws
    · simp only [List.cons_append, checkWidgetNotHooked, if_pos hw] at h ⊢
      exact h
    · simp only [List.cons_append, checkWidgetNotHooked, if_neg hw] at h ⊢
      exact ih h

theorem upsertA_last (regA : List (String × List String)) (name : String)
    (d v : List String) (hname : ∀ e ∈ regA, e.1 ≠ name) :
    upsertA (regA ++ [(name, d)]) name v = regA ++ [(name, v)] := by
  induction regA with
  | nil => simp [upsertA]
  | cons e regA ih =>
    obtain ⟨n, ws⟩ := e
    simp only [List.cons_append, upsertA]
    rw [if_neg (hname (n, ws) (List.mem_cons_self _ _))]
    exact congrArg (List.cons (n, ws)) (ih (fun e he => hname e (List.mem_cons_of_mem _ he)))

theorem lookupA_last (regA : List (String × List String)) (name : String)
    (d : List String) (hname : ∀ e ∈ regA, e.1 ≠ name) :
    lookupA (regA ++ [(name, d)]) name = some d := by
  induction regA with
  | nil => simp [lookupA]
  | cons e regA ih =>
    obtain ⟨n, ws⟩ := e
    simp only [List.cons_append, lookupA]
    rw [if_neg (hname (n, ws) (List.mem_cons_self _ _))]
    exact ih (fun e he => hname e (List.mem_cons_of_mem _ he))

theorem appendClaim_last (regA : List (String × List String)) (name : String)
    (d : List String) (w : String) (hname : ∀ e ∈ regA, e.1 ≠ name) :
    appendClaim (regA ++ [(name, d)]) name w = regA ++ [(name, d ++ [w])] := by
  unfold appendClaim
  rw [lookupA_last regA name d hname]
  exact upsertA_last regA name d _ hname

/-- A run of `_build_widget_hooks` over a flat dict whose keys all match
widgets and pass the duplicate check: it succeeds, appending exactly the
processed keys to this binder's claim list and leaving every other registry
entry untouched. -/
theorem buildItems_flat_run (name : String) (recursive allowM : Bool)
    (widgets : List String) :
    ∀ (xs : List (String × CVal)) (hooks0 : List (String × String))
      (regA : List (String × List String)) (done : List String),
    (∀ kv ∈ xs, ∀ sub, kv.2 ≠ CVal.dict sub) →
    (∀ kv ∈ xs, kv.1 ∈ widgets) →
    (xs.map Prod.fst).Nodup →
    (∀ e ∈ regA, e.1 ≠ name) →
    (allowM = true ∨ (∀ kv ∈ xs, kv.1 ∉ done ∧ ∀ e ∈ regA, kv.1 ∉ e.2)) →
    ∃ hooksF, buildItems name recursive allowM widgets (flatTreeOf xs)
        ⟨hooks0, regA ++ [(name, done)]⟩ =
      .ok ⟨hooksF, regA ++ [(name, done ++ xs.map Prod.fst)]⟩ := by
  intro xs
  induction xs with
  | nil =>
    intro hooks0 regA done _ _ _ _ _
    exact ⟨hooks0, by simp [flatTreeOf, buildItems]⟩
  | cons kv rest ih =>
    intro hooks0 regA done hflat hin hnd hname hchk
    obtain ⟨k, v⟩ := kv
    have hscrut : (if allowM then none
        else checkWidgetNotHooked (regA ++ [(name, done)]) k) = (none : Option String) := by
      rcases hchk with h | h
      · simp [h]
      · have hk := h (k, v) (List.mem_cons_self _ _)
        have hnone : checkWidgetNotHooked (regA ++ [(name, done)]) k = none := by
          rw [checkWidgetNotHooked_none_iff]
          intro e he
          rcases List.mem_append.mp he with he | he
          · exact hk.2 e he
          · obtain rfl := List.mem_singleton.mp he
            exact hk.1
        cases allowM <;> simp [hnone]
    have hkin : k ∈ widgets := hin (k, v) (List.mem_cons_self _ _)
    have hknotin : k ∉ rest.map Prod.fst := by
      have := hnd
      simp only [List.map_cons, List.nodup_cons] at this
      exact this.1
    have hchk2 : allowM = true ∨
        (∀ kv ∈ rest, kv.1 ∉ done ++ [k] ∧ ∀ e ∈ regA, kv.1 ∉ e.2) := by
      rcases hchk with h | h
      · exact Or.inl h
      · refine Or.inr (fun kv2 hkv2 => ⟨?_, (h kv2 (List.mem_cons_of_mem _ hkv2)).2⟩)
        intro hmem
        rcases List.mem_append.mp hmem with hm | hm
        · exact (h kv2 (List.mem_cons_of_mem _ hkv2)).1 hm
        · obtain hm := List.mem_singleton.mp hm
          exact hknotin (hm ▸ List.mem_map_of_mem Prod.fst hkv2)
    obtain ⟨hooksF, hF⟩ := ih (upsertA hooks0 k k) regA (done ++ [k])
      (fun kv2 h2 => hflat kv2 (List.mem_cons_of_mem _ h2))
      (fun kv2 h2 => hin kv2 (List.mem_cons_of_mem _ h2))
      (by simp only [List.map_cons, List.nodup_cons] at hnd; exact hnd.2)
      hname hchk2
    refine ⟨hooksF, ?_⟩
    cases v with
    | dict sub => exact absurd rfl (hflat (k, .dict sub) (List.mem_cons_self _ _) sub)
    | bool b =>
      simp only [flatTreeOf, buildItems, hscrut, if_pos hkin,
        appendClaim_last regA name done k hname, hF]
      simp [List.append_assoc]
    | int n =>
      simp only [flatTreeOf, buildItems, hscrut, if_pos hkin,
        appendClaim_last regA name done k hname, hF]
      simp [List.append_assoc]
    | str s =>
      simp only [flatTreeOf, buildItems, hscrut, if_pos hkin,
        appendClaim_last regA name done k hname, hF]
      simp [List.append_assoc]

/-- Reaching an entry whose key is already claimed raises at once,
whatever the entry's value (the duplicate check runs before the dict
test). -/
theorem buildItems_cons_conflict (name : String) (recursive : Bool) (widgets : List String)
    (k : String) (v : CVal) (rest : CTree) (st : HookSt) (owner : String)
    (h : checkWidgetNotHooked st.registry k = some owner) :
    buildItems name recursive false widgets (.cons k v rest) st =
      .error (.alreadyHooked k owner) := by
  cases v <;> cases recursive <;> simp [buildItems, h]

/-- A run of `_build_widget_hooks` (duplicate checks on) over a flat dict
that reaches a key already claimed by an earlier registry entry: the run
raises `WidgetAlreadydHookedError` naming that claim's owner. -/
theorem buildItems_flat_conflict (name : String) (recursive : Bool)
    (widgets : List String) (owner : String) :
    ∀ (p : List (String × CVal)) (kstar : String) (vstar : CVal) (r : List (String × CVal))
      (hooks0 : List (String × String)) (regA : List (String × List String))
      (done : List String),
    (∀ kv ∈ p, ∀ sub, kv.2 ≠ CVal.dict sub) →
    (∀ kv ∈ p, kv.1 ∈ widgets) →
    (p.map Prod.fst).Nodup →
    (∀ e ∈ regA, e.1 ≠ name) →
    (∀ kv ∈ p, kv.1 ∉ done ∧ ∀ e ∈ regA, kv.1 ∉ e.2) →
    checkWidgetNotHooked regA kstar = some owner →
    buildItems name recursive false widgets (flatTreeOf (p ++ (kstar, vstar) :: r))
      ⟨hooks0, regA ++ [(name, done)]⟩ = .error (.alreadyHooked kstar owner) := by
  intro p
  induction p with
  | nil =>
    intro kstar vstar r hooks0 regA done _ _ _ _ _ howner
    have hcheck : checkWidgetNotHooked (regA ++ [(name, done)]) kstar = some owner :=
      checkWidgetNotHooked_append_left _ _ _ _ howner
    exact buildItems_cons_conflict name recursive widgets kstar vstar (flatTreeOf r)
      ⟨hooks0, regA ++ [(name, done)]⟩ owner hcheck
  | cons kv p ih =>
    intro kstar vstar r hooks0 regA done hflat hin hnd hname hchk howner
    obtain ⟨k, v⟩ := kv
    have hk := hchk (k, v) (List.mem_cons_self _ _)
    have hnone : checkWidgetNotHooked (regA ++ [(name, done)]) k = none := by
      rw [checkWidgetNotHooked_none_iff]
      intro e he
      rcases List.mem_append.mp he with he | he
      · exact hk.2 e he
      · obtain rfl := List.mem_singleton.mp he
        exact hk.1
    have hkin : k ∈ widgets := hin (k, v) (List.mem_cons_self _ _)
    have hknotin : k ∉ p.map Prod.fst := by
      have := hnd
      simp only [List.map_cons, List.nodup_cons] at this
      exact this.1
    have hchk2 : ∀ kv ∈ p, kv.1 ∉ done ++ [k] ∧ ∀ e ∈ regA, kv.1 ∉ e.2 := by
      refine fun kv2 hkv2 => ⟨?_, (hchk kv2 (List.mem_cons_of_mem _ hkv2)).2⟩
      intro hmem
      rcases List.mem_append.mp hmem with hm | hm
      · exact (hchk kv2 (List.mem_cons_of_mem _ hkv2)).1 hm
      · obtain hm := List.mem_singleton.mp hm
        exact hknotin (hm ▸ List.mem_map_of_mem Prod.fst hkv2)
    have hrec := ih kstar vstar r (upsertA hooks0 k k) regA (done ++ [k])
      (fun kv2 h2 => hflat kv2 (List.mem_cons_of_mem _ h2))
      (fun kv2 h2 => hin kv2 (List.mem_cons_of_mem _ h2))
      (by simp only [List.map_cons, List.nodup_cons] at hnd; exact hnd.2)
      hname hchk2 howner
    cases v with
    | dict sub => exact absurd rfl (hflat (k, .dict sub) (List.mem_cons_self _ _) sub)
    | bool b =>
      simp only [List.cons_append, flatTreeOf, buildItems, hnone, if_pos hkin,
        appendClaim_last regA name done k hname]
      exact hrec
    | int n =>
      simp only [List.cons_append, flatTreeOf, buildItems, hnone, if_pos hkin,
        appendClaim_last regA name done k hname]
      exact hrec
    | str s =>
      simp only [List.cons_append, flatTreeOf, buildItems, hnone, if_pos hkin,
        appendClaim_last regA name done k hname]
      exact hrec

/-- C6 (amended): over flat data trees whose keys all exactly match control
identifiers, built one after the other from an empty registry: without
`allow_multiple_hooks` the second Binder raises `WidgetAlreadydHookedError`
naming the first Binder at the first shared key; with the flag set the
second construction succeeds — and then the shared identifier appears in
BOTH claim lists, so the at-most-one-claim invariant holds only for the
no-flag case (and only for flat trees: recursive calls reset the builder's
claim-list entry, losing earlier claims — see the counterexample). -/
theorem c6_duplicate_hook_registry (name1 name2 : String) (recursive1 recursive2 : Bool)
    (widgets : List String) (xs1 p r : List (String × CVal)) (kstar : String) (vstar : CVal)
    (hne : name1 ≠ name2)
    (hflat1 : ∀ kv ∈ xs1, ∀ sub, kv.2 ≠ CVal.dict sub)
    (hin1 : ∀ kv ∈ xs1, kv.1 ∈ widgets)
    (hnd1 : (xs1.map Prod.fst).Nodup)
    (hflat2 : ∀ kv ∈ p ++ (kstar, vstar) :: r, ∀ sub, kv.2 ≠ CVal.dict sub)
    (hin2 : ∀ kv ∈ p ++ (kstar, vstar) :: r, kv.1 ∈ widgets)
    (hnd2 : ((p ++ (kstar, vstar) :: r).map Prod.fst).Nodup)
    (hdisj : ∀ kv ∈ p, kv.1 ∉ xs1.map Prod.fst)
    (hshared : kstar ∈ xs1.map Prod.fst) :
    ∃ hooks1 hooks2,
      buildWidgetHooks name1 recursive1 false widgets (flatTreeOf xs1) ⟨[], []⟩ =
        .ok ⟨hooks1, [(name1, xs1.map Prod.fst)]⟩ ∧
      buildWidgetHooks name2 recursive2 false widgets
          (flatTreeOf (p ++ (kstar, vstar) :: r)) ⟨[], [(name1, xs1.map Prod.fst)]⟩ =
        .error (.alreadyHooked kstar name1) ∧
      buildWidgetHooks name2 recursive2 true widgets
          (flatTreeOf (p ++ (kstar, vstar) :: r)) ⟨[], [(name1, xs1.map Prod.fst)]⟩ =
        .ok ⟨hooks2, [(name1, xs1.map Prod.fst),
          (name2, (p ++ (kstar, vstar) :: r).map Prod.fst)]⟩ ∧
      kstar ∈ (p ++ (kstar, vstar) :: r).map Prod.fst := by
  have hnamep : ∀ e ∈ [(name1, xs1.map Prod.fst)], e.1 ≠ name2 := by
    intro e he
    obtain rfl := List.mem_singleton.mp he
    exact hne
  obtain ⟨hooks1, h1⟩ := buildItems_flat_run name1 recursive1 false widgets xs1 [] [] []
    hflat1 hin1 hnd1 (by simp) (Or.inr (by simp))
  simp only [List.nil_append] at h1
  obtain ⟨hooks2, h3⟩ := buildItems_flat_run name2 recursive2 true widgets
    (p ++ (kstar, vstar) :: r) [] [(name1, xs1.map Prod.fst)] []
    hflat2 hin2 hnd2 hnamep (Or.inl rfl)
  simp only [List.nil_append, List.cons_append] at h3
  have hreset : upsertA [(name1, xs1.map Prod.fst)] name2 [] =
      [(name1, xs1.map Prod.fst), (name2, [])] := by
    simp [upsertA, hne]
  have h2 : buildWidgetHooks name2 recursive2 false widgets
      (flatTreeOf (p ++ (kstar, vstar) :: r)) ⟨[], [(name1, xs1.map Prod.fst)]⟩ =
      .error (.alreadyHooked kstar name1) := by
    show buildItems name2 recursive2 false widgets (flatTreeOf (p ++ (kstar, vstar) :: r))
      ⟨[], upsertA [(name1, xs1.map Prod.fst)] name2 []⟩ = _
    rw [hreset]
    exact buildItems_flat_conflict name2 recursive2 widgets name1 p kstar vstar r []
      [(name1, xs1.map Prod.fst)] []
      (fun kv hkv => hflat2 kv (List.mem_append_left _ hkv))
      (fun kv hkv => hin2 kv (List.mem_append_left _ hkv))
      (by rw [List.map_append] at hnd2; exact hnd2.of_append_left)
      hnamep
      (fun kv hkv => ⟨by simp, fun e he => by
        obtain rfl := List.mem_singleton.mp he
        exact hdisj kv hkv⟩)
      (by simp [checkWidgetNotHooked, hshared])
  refine ⟨hooks1, hooks2, ?_, h2, ?_, by simp⟩
  · show buildItems name1 recursive1 false widgets (flatTreeOf xs1)
      ⟨[], upsertA [] name1 []⟩ = _
    exact h1
  · show buildItems name2 recursive2 true widgets (flatTreeOf (p ++ (kstar, vstar) :: r))
      ⟨[], upsertA [(name1, xs1.map Prod.fst)] name2 []⟩ = _
    rw [hreset]
    exact h3

/-- Witness for `c6_duplicate_hook_registry`: binder `A` claims widget `w`;
binder `B`, built without the flag over data containing the same key,
raises naming `A`. -/
theorem c6_duplicate_hook_registry_witness :
    buildWidgetHooks "B" true false ["w"] (flatTreeOf [("w", CVal.int 2)])
      ⟨[], [("A", ["w"])]⟩ = .error (.alreadyHooked "w" "A") := by
  obtain ⟨hooks1, hooks2, h1, h2, h3, h4⟩ :=
    c6_duplicate_hook_registry "A" "B" true true ["w"] [("w", CVal.int 1)] [] []
      "w" (CVal.int 2) (by decide)
      (by intro kv hkv sub; obtain rfl := List.mem_singleton.mp hkv; simp)
      (by decide) (by decide)
      (by intro kv hkv sub; obtain rfl := List.mem_singleton.mp hkv; simp)
      (by decide) (by decide) (by simp) (by decide)
  exact h2

/-- C6's counterexample to the claim as stated: with `allow_multiple_hooks`
the second construction succeeds and the identifier `w` then appears in
two claim lists at once (refuting the unconditional at-most-one
invariant); and a NESTED first binder loses its claim on `x` (each
recursive call resets the instance's registry entry), so a second binder
built without the flag over the shared identifier `x` raises nothing and
hooks `x` as well (refuting the unconditional raise). -/
theorem c6_counterexample_multiclaim_and_nested_wipe :
    buildWidgetHooks "A" true false ["w"] (.cons "w" (.int 1) .nil) ⟨[], []⟩ =
      .ok ⟨[("w", "w")], [("A", ["w"])]⟩ ∧
    buildWidgetHooks "B" true true ["w"] (.cons "w" (.int 2) .nil) ⟨[], [("A", ["w"])]⟩ =
      .ok ⟨[("w", "w")], [("A", ["w"]), ("B", ["w"])]⟩ ∧
    buildWidgetHooks "A2" true false ["x", "y"]
      (.cons "x" (.int 1) (.cons "sub" (.dict (.cons "y" (.int 2) .nil)) .nil)) ⟨[], []⟩ =
      .ok ⟨[("x", "x"), ("y", "y")], [("A2", ["y"])]⟩ ∧
    buildWidgetHooks "B2" true false ["x", "y"] (.cons "x" (.int 3) .nil)
      ⟨[], [("A2", ["y"])]⟩ =
      .ok ⟨[("x", "x")], [("A2", ["y"]), ("B2", ["x"])]⟩ := by
  decide
